import Mathlib

/-!
# Minesweeper board logic (`Grid.c`, `main.c`)

A shallow embedding of the board logic of the Minesweeper game: the cell and grid
records, `InBounds`, `GridCreate`, `GridPlantBomb`, `CellReveal` (with its recursive
flood fill) and `CellFlag`, followed by theorems about them.

Conventions of the embedding.

* C `int` values are mathematical integers (`Int`).  On the boards the game produces
  `discoveredCellCount` stays within `0 .. GRID_SIZE * GRID_SIZE` and
  `explosiveNeighbor` within `0 .. 8`, so no overflow is involved.  On an arbitrary
  board `discoveredCellCount++` overflows when the counter is `INT_MAX`: what is
  stated about the incremented counter of an arbitrary board carries the hypothesis
  that the counter stays within `INT_MAX`.
* `Grid.h` and `basics.h` are not part of the sources.  Their constants
  (`GRID_SIZE`, `BOMB_COUNT`, `FAILURE`, `SUCCESS`) are parameters, collected in `Consts`.
* The grid `Cell* cells[GRID_SIZE][GRID_SIZE]` is a function from coordinates to cells.
  Only in-bounds coordinates are ever read or written, exactly as in the source, where
  every access is guarded by `InBounds` (or by `rand() % GRID_SIZE`).
  The grid and every cell are allocated (`GridCreate` succeeded), so the null checks
  of the source never fire and are not represented.
* The SFML members of a cell (`shape`, `text`) only matter for drawing and are left out.
* `rand()` is modelled by an explicit list of draws.
* The recursion of `CellReveal` is modelled with fuel; `CellReveal` supplies
  `GRID_SIZE * GRID_SIZE + 1`, which is proved to be enough on every board.
-/

set_option autoImplicit false

namespace Minesweeper

/-! ## Data model -/

/-- Constants of the headers `Grid.h` and `basics.h`, taken as parameters. -/
structure Consts where
  GRID_SIZE : Nat
  BOMB_COUNT : Int
  FAILURE : Int
  SUCCESS : Int

/-- The logical members of `struct Cell`. -/
structure Cell where
  bDiscovered : Bool
  bFlagged : Bool
  bPlanted : Bool
  explosiveNeighbor : Int
deriving DecidableEq

/-- The logical members of `struct Grid`. -/
structure Grid where
  cells : Int → Int → Cell
  discoveredCellCount : Int

/-- Assignment `*grid->cells[x][y] = c`. -/
def Grid.setCell (g : Grid) (x y : Int) (c : Cell) : Grid :=
  { g with cells := fun i j => if i = x ∧ j = y then c else g.cells i j }

/-- `InBounds` of `Grid.c`. -/
def InBounds (k : Consts) (x y : Int) : Bool :=
  decide (x ≥ 0) && decide (x < (k.GRID_SIZE : Int)) && decide (y ≥ 0) &&
    decide (y < (k.GRID_SIZE : Int))

/-- The values of `(dx, dy)` in the order of the nested loops
`for dx = -1..1  for dy = -1..1`. -/
def offsets : List (Int × Int) :=
  [(-1, -1), (-1, 0), (-1, 1), (0, -1), (0, 0), (0, 1), (1, -1), (1, 0), (1, 1)]

/-- The logical effect of `CellCreate`. -/
def CellCreate : Cell :=
  { bDiscovered := false, bFlagged := false, bPlanted := false, explosiveNeighbor := 0 }

/-- The logical effect of `GridCreate`. -/
def GridCreate : Grid :=
  { cells := fun _ _ => CellCreate, discoveredCellCount := 0 }

/-! ## `CellReveal` -/

/-- The guard `!ncell->bDiscovered && !ncell->bFlagged && !ncell->bPlanted`. -/
def revealGuard (c : Cell) : Bool :=
  !c.bDiscovered && !c.bFlagged && !c.bPlanted

/-- The flood-fill loops of `CellReveal` over the remaining offsets; `call` is the
recursive call, whose return value the loop ignores. -/
def revealNeighbors (k : Consts) (call : Grid → Int → Int → Option (Int × Grid))
    (gx gy : Int) : List (Int × Int) → Grid → Option Grid
  | [], g => some g
  | d :: rest, g =>
    if d.1 = 0 ∧ d.2 = 0 then revealNeighbors k call gx gy rest g
    else if InBounds k (gx + d.1) (gy + d.2) then
      if revealGuard (g.cells (gx + d.1) (gy + d.2)) then
        match call g (gx + d.1) (gy + d.2) with
        | none => none
        | some res => revealNeighbors k call gx gy rest res.2
      else revealNeighbors k call gx gy rest g
    else revealNeighbors k call gx gy rest g

/-- The first part of `CellReveal` on a cell that is revealed and is no bomb:
`cell->bDiscovered = true; grid->discoveredCellCount++`.  The increment is the
mathematical `+ 1`, which is what the code computes while the counter is below
`INT_MAX`. -/
def markDiscovered (g : Grid) (gx gy : Int) : Grid :=
  { cells := (g.setCell gx gy { g.cells gx gy with bDiscovered := true }).cells,
    discoveredCellCount := g.discoveredCellCount + 1 }

/-- The end of `CellReveal`: `totalSafe` and the returned code. -/
def winCode (k : Consts) (g : Grid) : Int :=
  if g.discoveredCellCount ≥ (k.GRID_SIZE : Int) * (k.GRID_SIZE : Int) - k.BOMB_COUNT then
    k.SUCCESS
  else 0

/-- `CellReveal` with a bound on the recursion depth: `none` when the bound is hit. -/
def CellRevealFuel (k : Consts) : Nat → Grid → Int → Int → Option (Int × Grid)
  | 0 => fun _ _ _ => none
  | fuel + 1 => fun g gx gy =>
    if !InBounds k gx gy then some (0, g)
    else if (g.cells gx gy).bDiscovered || (g.cells gx gy).bFlagged then some (0, g)
    else if (g.cells gx gy).bPlanted then
      some (k.FAILURE, g.setCell gx gy { g.cells gx gy with bDiscovered := true })
    else
      let g1 := markDiscovered g gx gy
      let after :=
        if (g.cells gx gy).explosiveNeighbor > 0 then some g1
        else revealNeighbors k (CellRevealFuel k fuel) gx gy offsets g1
      match after with
      | none => none
      | some g2 => some (winCode k g2, g2)

/-- `CellReveal` of `Grid.c`: the returned code and the grid afterwards. -/
def CellReveal (k : Consts) (g : Grid) (gx gy : Int) : Option (Int × Grid) :=
  CellRevealFuel k (k.GRID_SIZE * k.GRID_SIZE + 1) g gx gy

/-! ## `CellFlag` -/

/-- `CellFlag` of `Grid.c`. -/
def CellFlag (k : Consts) (g : Grid) (gx gy : Int) : Grid :=
  if !InBounds k gx gy then g
  else if (g.cells gx gy).bDiscovered then g
  else g.setCell gx gy { g.cells gx gy with bFlagged := !(g.cells gx gy).bFlagged }

/-! ## `GridPlantBomb` -/

/-- The inner loops of `GridPlantBomb`: `explosiveNeighbor++` on the in-bounds
neighbours of `(rx, ry)`. -/
def bumpNeighbors (k : Consts) (rx ry : Int) : List (Int × Int) → Grid → Grid
  | [], g => g
  | d :: rest, g =>
    if InBounds k (rx + d.1) (ry + d.2) && !(decide (d.1 = 0) && decide (d.2 = 0)) then
      bumpNeighbors k rx ry rest
        (g.setCell (rx + d.1) (ry + d.2)
          { g.cells (rx + d.1) (ry + d.2) with
            explosiveNeighbor := (g.cells (rx + d.1) (ry + d.2)).explosiveNeighbor + 1 })
    else bumpNeighbors k rx ry rest g

/-- The `while (placed < bombCount)` loop of `GridPlantBomb`.  Each element of the
list holds the two values `rand()` returns in one iteration; `none` when the list is
used up before the loop ends. -/
def plantLoop (k : Consts) (cellToAvoid : Int × Int) (bombCount : Int) :
    List (Nat × Nat) → Grid → Int → Option Grid
  | [], g, placed => if placed < bombCount then none else some g
  | r :: rest, g, placed =>
    if placed < bombCount then
      let rx : Int := (r.1 : Int) % (k.GRID_SIZE : Int)
      let ry : Int := (r.2 : Int) % (k.GRID_SIZE : Int)
      if rx = cellToAvoid.1 ∧ ry = cellToAvoid.2 then
        plantLoop k cellToAvoid bombCount rest g placed
      else if (g.cells rx ry).bPlanted then
        plantLoop k cellToAvoid bombCount rest g placed
      else
        plantLoop k cellToAvoid bombCount rest
          (bumpNeighbors k rx ry offsets
            (g.setCell rx ry { g.cells rx ry with bPlanted := true }))
          (placed + 1)
    else some g

/-- `GridPlantBomb` of `Grid.c`, on the draws `rand`. -/
def GridPlantBomb (k : Consts) (g : Grid) (bombCount : Int) (cellToAvoid : Int × Int)
    (rand : List (Nat × Nat)) : Option Grid :=
  let totalCells : Int := (k.GRID_SIZE : Int) * (k.GRID_SIZE : Int)
  let bombCount := if bombCount > totalCells - 1 then totalCells - 1 else bombCount
  plantLoop k cellToAvoid bombCount rand g 0

/-! ## Counting cells -/

/-- The coordinates of the grid. -/
def coords (k : Consts) : List (Nat × Nat) :=
  List.product (List.range k.GRID_SIZE) (List.range k.GRID_SIZE)

/-- The number of cells of the grid that satisfy `p`. -/
def countCells (k : Consts) (p : Cell → Bool) (g : Grid) : Nat :=
  (coords k).countP (fun c => p (g.cells (c.1 : Int) (c.2 : Int)))

/-- The number of mined cells. -/
def minedCount (k : Consts) (g : Grid) : Nat :=
  countCells k (fun c => c.bPlanted) g

/-- The number of cells that are discovered and not mined. -/
def safeDiscovered (k : Consts) (g : Grid) : Nat :=
  countCells k (fun c => c.bDiscovered && !c.bPlanted) g

/-- The number of cells that are not discovered. -/
def undiscovered (k : Consts) (g : Grid) : Nat :=
  countCells k (fun c => !c.bDiscovered) g

/-- The number of mined in-bounds 8-neighbours of `(x, y)`, the cell itself excluded. -/
def mineNeighbors (k : Consts) (g : Grid) (x y : Int) : Nat :=
  offsets.countP (fun d =>
    !(decide (d.1 = 0) && decide (d.2 = 0)) && InBounds k (x + d.1) (y + d.2) &&
      (g.cells (x + d.1) (y + d.2)).bPlanted)

/-! ## The event loop of `main` -/

/-- The window events `main` distinguishes.  `mouseMoved` carries the value that
`GridUpdateLoop` returns for the new mouse position (a cell of the grid, or
`(-1, -1)`), which depends on the window geometry and is not modelled. -/
inductive Event
  | closed
  | mouseMoved (hovered : Int × Int)
  | leftPressed
  | rightPressed
  | other

/-- The variables of `main` that the game logic uses. -/
structure GameState where
  gameGrid : Grid
  currentCell : Int × Int
  bFirstTouch : Bool

/-- The state of `main` before its loop. -/
def initialState : GameState :=
  { gameGrid := GridCreate, currentCell := (-1, -1), bFirstTouch := true }

/-- The body of the event loop of `main` for one event: the state afterwards and, when
`main` returns from inside the loop, the code it returns.  `none` when `GridPlantBomb`
does not finish on the draws `rand`. -/
def handleEvent (k : Consts) (rand : List (Nat × Nat)) (s : GameState) :
    Event → Option (GameState × Option Int)
  | Event.closed => some (s, none)
  | Event.other => some (s, none)
  | Event.mouseMoved hovered => some ({ s with currentCell := hovered }, none)
  | Event.leftPressed =>
    if s.currentCell.1 ≥ 0 ∧ s.currentCell.2 ≥ 0 then
      match (if s.bFirstTouch then
          GridPlantBomb k s.gameGrid k.BOMB_COUNT s.currentCell rand
        else some s.gameGrid) with
      | none => none
      | some g1 =>
        match CellReveal k g1 s.currentCell.1 s.currentCell.2 with
        | none => none
        | some res =>
          some ({ gameGrid := res.2, currentCell := s.currentCell, bFirstTouch := false },
            if res.1 = k.FAILURE then some k.FAILURE
            else if res.1 = k.SUCCESS then some k.SUCCESS
            else none)
    else some (s, none)
  | Event.rightPressed =>
    if s.currentCell.1 ≥ 0 ∧ s.currentCell.2 ≥ 0 then
      some ({ s with gameGrid := CellFlag k s.gameGrid s.currentCell.1 s.currentCell.2 },
        none)
    else some (s, none)

/-- The event loop of `main` on a list of events, up to the first `return`. -/
def runEvents (k : Consts) (rand : List (Nat × Nat)) :
    GameState → List Event → Option (GameState × Option Int)
  | s, [] => some (s, none)
  | s, e :: es =>
    match handleEvent k rand s e with
    | none => none
    | some (s2, some code) => some (s2, some code)
    | some (s2, none) => runEvents k rand s2 es

/-- The events that lead `main` to the board `boardC3`: right clicks on `(0, 0)`,
`(0, 1)`, `(2, 0)`, a left click on `(1, 0)`, right clicks on `(0, 0)` and `(2, 0)`. -/
def eventsC3 : List Event :=
  [Event.mouseMoved (0, 0), Event.rightPressed, Event.mouseMoved (0, 1), Event.rightPressed,
    Event.mouseMoved (2, 0), Event.rightPressed, Event.mouseMoved (1, 0), Event.leftPressed,
    Event.mouseMoved (0, 0), Event.rightPressed, Event.mouseMoved (2, 0), Event.rightPressed]

/-! ## Small boards used as concrete inputs -/

/-- A 3×3 game with one bomb. -/
def demo3 : Consts := { GRID_SIZE := 3, BOMB_COUNT := 1, FAILURE := -1, SUCCESS := 1 }

/-- The 3×3 board with its bomb at `(2, 2)`, planted on a first touch at `(0, 0)`: the
draws are `(0, 0)`, which is the cell to avoid, and `(2, 2)`.  The counts are
`0 0 0 / 0 1 1 / 0 1 0` for `x = 0, 1, 2` (each row `y = 0, 1, 2`). -/
def board3 : Grid :=
  (GridPlantBomb demo3 GridCreate 1 (0, 0) [(0, 0), (2, 2)]).getD GridCreate

/-- The board `board3` after the reveal of the numbered cell `(1, 1)`. -/
def board3r : Grid := ((CellReveal demo3 board3 1 1).getD (0, GridCreate)).2

/-- The fresh 3×3 board with flags on `(0, 0)`, `(0, 1)` and `(2, 0)`. -/
def boardC3a : Grid :=
  CellFlag demo3 (CellFlag demo3 (CellFlag demo3 GridCreate 0 0) 0 1) 2 0

/-- The first left click, on `(1, 0)`: the bomb goes to `(2, 2)`. -/
def boardC3b : Grid :=
  (GridPlantBomb demo3 boardC3a demo3.BOMB_COUNT (1, 0) [(2, 2)]).getD GridCreate

/-- The reveal of `(1, 0)` that follows: it discovers `(1, 0)`, `(1, 1)` and `(2, 1)`;
the three flagged cells stay hidden. -/
def boardC3c : Grid := ((CellReveal demo3 boardC3b 1 0).getD (0, GridCreate)).2

/-- The flags of `(0, 0)` and `(2, 0)` are taken off again; `(0, 1)` keeps its flag. -/
def boardC3 : Grid := CellFlag demo3 (CellFlag demo3 boardC3c 0 0) 2 0

/-! ## Predicates used in the statements -/

/-- The cell at `(x, y)` is in bounds, undiscovered, unflagged and not mined: the
case in which `CellReveal` goes past its three early returns. -/
def Safe (k : Consts) (g : Grid) (x y : Int) : Prop :=
  InBounds k x y = true ∧ (g.cells x y).bDiscovered = false ∧
    (g.cells x y).bFlagged = false ∧ (g.cells x y).bPlanted = false

/-- The result `g2` differs from `g` only by cells that were in bounds, undiscovered,
unflagged and not mined and are now discovered, and the counter moved with them. -/
structure Ext (k : Consts) (g g2 : Grid) : Prop where
  cell : ∀ i j, g2.cells i j = g.cells i j ∨
    (InBounds k i j = true ∧ revealGuard (g.cells i j) = true ∧
      g2.cells i j = { g.cells i j with bDiscovered := true })
  count : g2.discoveredCellCount - (safeDiscovered k g2 : Int) =
    g.discoveredCellCount - (safeDiscovered k g : Int)

/-- Every cell without a positive count that `g2` discovers beyond `g` has all its
in-bounds, unflagged, unmined neighbours discovered in `g2`. -/
def Closed (k : Consts) (g g2 : Grid) : Prop :=
  ∀ i j, (g.cells i j).bDiscovered = false → (g2.cells i j).bDiscovered = true →
    ¬ (g.cells i j).explosiveNeighbor > 0 →
    ∀ d ∈ offsets, ¬ (d.1 = 0 ∧ d.2 = 0) → InBounds k (i + d.1) (j + d.2) = true →
      (g.cells (i + d.1) (j + d.2)).bFlagged = false →
      (g.cells (i + d.1) (j + d.2)).bPlanted = false →
      (g2.cells (i + d.1) (j + d.2)).bDiscovered = true

/-- What a call of `CellReveal` on a safe cell `(x, y)` achieves. -/
structure Post (k : Consts) (g : Grid) (x y : Int) (g2 : Grid) : Prop where
  ext : Ext k g g2
  target : (g2.cells x y).bDiscovered = true
  closed : Closed k g g2

/-- The mine counts of `g` are accurate: `explosiveNeighbor` of every cell of the grid
is the number of its mined in-bounds 8-neighbours. -/
def CountsAccurate (k : Consts) (g : Grid) : Prop :=
  ∀ i j, InBounds k i j = true →
    (g.cells i j).explosiveNeighbor = (mineNeighbors k g i j : Int)

/-- The number of offsets other than `(0, 0)` that are equal to `(a, b)`. -/
def adjCount (a b : Int) : Nat :=
  offsets.countP (fun d =>
    !(decide (d.1 = 0) && decide (d.2 = 0)) && decide (d.1 = a ∧ d.2 = b))

/-- The offset `d` makes the loops of `GridPlantBomb` around `(rx, ry)` increment
the cell `(i, j)`. -/
def bumpHits (k : Consts) (rx ry i j : Int) (d : Int × Int) : Bool :=
  (InBounds k (rx + d.1) (ry + d.2) && !(decide (d.1 = 0) && decide (d.2 = 0))) &&
    decide (i = rx + d.1 ∧ j = ry + d.2)

/-- One planting of `GridPlantBomb` at `(rx, ry)`: the bomb and the counts around it. -/
def plantAt (k : Consts) (g : Grid) (rx ry : Int) : Grid :=
  bumpNeighbors k rx ry offsets (g.setCell rx ry { g.cells rx ry with bPlanted := true })

/-- The grid `g2` is `g` after `placed` new bombs were planted by `GridPlantBomb` with
the given cell to avoid. -/
structure Planted (k : Consts) (avoid : Int × Int) (g g2 : Grid) (placed : Int) : Prop where
  nonneg : 0 ≤ placed
  mined : (minedCount k g2 : Int) = (minedCount k g : Int) + placed
  disc : ∀ i j, (g2.cells i j).bDiscovered = (g.cells i j).bDiscovered
  flag : ∀ i j, (g2.cells i j).bFlagged = (g.cells i j).bFlagged
  count : g2.discoveredCellCount = g.discoveredCellCount
  accurate : CountsAccurate k g → CountsAccurate k g2
  avoided : (g.cells avoid.1 avoid.2).bPlanted = false →
    (g2.cells avoid.1 avoid.2).bPlanted = false

/-- A board as `GridCreate` leaves it, up to flags: nothing discovered, no bomb, all
counts zero. -/
def Unplanted (g : Grid) : Prop :=
  (∀ i j, (g.cells i j).bDiscovered = false ∧ (g.cells i j).bPlanted = false ∧
    (g.cells i j).explosiveNeighbor = 0) ∧ g.discoveredCellCount = 0

/-- The boards the operations of the game produce from `GridCreate`: `CellFlag` at any
time, `GridPlantBomb` once (with `BOMB_COUNT`), and `CellReveal` only after it.  The
boolean tells whether the bombs have been planted.  The game loop of `main.c` only
produces such boards: it plants on the first left click and reveals right after. -/
inductive Reachable (k : Consts) : Bool → Grid → Prop
  | create : Reachable k false GridCreate
  | flag {p : Bool} {g : Grid} (x y : Int) :
      Reachable k p g → Reachable k p (CellFlag k g x y)
  | plant {g g2 : Grid} (avoid : Int × Int) (rand : List (Nat × Nat)) :
      Reachable k false g → GridPlantBomb k g k.BOMB_COUNT avoid rand = some g2 →
      Reachable k true g2
  | reveal {g : Grid} (x y : Int) {res : Int × Grid} :
      Reachable k true g → CellReveal k g x y = some res → Reachable k true res.2

/-- The cell `(i2, j2)` is one of the 8 neighbours of `(i, j)`. -/
def Adjacent (i j i2 j2 : Int) : Prop :=
  i2 - i ≤ 1 ∧ i - i2 ≤ 1 ∧ j2 - j ≤ 1 ∧ j - j2 ≤ 1 ∧ ¬ (i2 = i ∧ j2 = j)

/-- The maximal 8-connected region of zero-count cells of the grid around `(cx, cy)`:
the cells a chain of neighbouring zero-count cells links to `(cx, cy)`. -/
inductive ZeroRegion (k : Consts) (g : Grid) (cx cy : Int) : Int → Int → Prop
  | start : ZeroRegion k g cx cy cx cy
  | step {i j i2 j2 : Int} : ZeroRegion k g cx cy i j → Adjacent i j i2 j2 →
      InBounds k i2 j2 = true → (g.cells i2 j2).explosiveNeighbor = 0 →
      ZeroRegion k g cx cy i2 j2

/-- The part of the zero-count region around `(cx, cy)` that chains of cells which are
undiscovered and unflagged in `g` link to `(cx, cy)`. -/
inductive OpenRegion (k : Consts) (g : Grid) (cx cy : Int) : Int → Int → Prop
  | start : OpenRegion k g cx cy cx cy
  | step {i j i2 j2 : Int} : OpenRegion k g cx cy i j → Adjacent i j i2 j2 →
      InBounds k i2 j2 = true → (g.cells i2 j2).explosiveNeighbor = 0 →
      (g.cells i2 j2).bDiscovered = false → (g.cells i2 j2).bFlagged = false →
      OpenRegion k g cx cy i2 j2

/-- What every call of `CellReveal` and `CellFlag` preserves: bombs, counts and, for
`CellReveal`, flags; discovered cells stay discovered; the counter moves with the
number of discovered unmined cells. -/
structure Frame (k : Consts) (g g2 : Grid) : Prop where
  flagged : ∀ i j, (g2.cells i j).bFlagged = (g.cells i j).bFlagged
  planted : ∀ i j, (g2.cells i j).bPlanted = (g.cells i j).bPlanted
  neighbor : ∀ i j, (g2.cells i j).explosiveNeighbor = (g.cells i j).explosiveNeighbor
  disc_mono : ∀ i j, (g.cells i j).bDiscovered = true → (g2.cells i j).bDiscovered = true
  count : g2.discoveredCellCount - (safeDiscovered k g2 : Int) =
    g.discoveredCellCount - (safeDiscovered k g : Int)

/-- The invariant of the reachable boards. -/
structure Inv (k : Consts) (p : Bool) (g : Grid) : Prop where
  count : g.discoveredCellCount = (safeDiscovered k g : Int)
  accurate : CountsAccurate k g
  unplanted : p = false → Unplanted g

/-- The largest value of a C `int` (`INT_MAX` of `limits.h`, for an `int` of 32 bits):
`discoveredCellCount++` is the mathematical `+ 1` on a counter below it. -/
def INT_MAX : Int := 2147483647

/-- The number of cells that are neither discovered nor mined. -/
def hiddenSafe (k : Consts) (g : Grid) : Nat :=
  countCells k (fun c => !c.bDiscovered && !c.bPlanted) g

/-- A left click on the numbered cell `(1, 1)`, the first of the game. -/
def eventsFirst : List Event := [Event.mouseMoved (1, 1), Event.leftPressed]

/-- The state of `main` after `eventsFirst` when the draw is `(2, 2)`. -/
def outFirst : GameState × Option Int :=
  (runEvents demo3 [(2, 2)] initialState eventsFirst).getD (initialState, none)

/-- The cell `(i, j)` is linked to `(cx, cy)` by a chain of neighbouring cells, each
of them (the last one apart) of count zero and discovered in `g2` but not in `g`. -/
inductive NewChain (k : Consts) (g g2 : Grid) (cx cy : Int) : Int → Int → Prop
  | start : NewChain k g g2 cx cy cx cy
  | step {i j i2 j2 : Int} : NewChain k g g2 cx cy i j →
      (g.cells i j).bDiscovered = false → (g2.cells i j).bDiscovered = true →
      (g.cells i j).explosiveNeighbor = 0 → Adjacent i j i2 j2 →
      NewChain k g g2 cx cy i2 j2

/-! # Theorems -/

/-! ## Basic facts -/

theorem InBounds_iff (k : Consts) (x y : Int) :
    InBounds k x y = true ↔ 0 ≤ x ∧ x < (k.GRID_SIZE : Int) ∧ 0 ≤ y ∧ y < (k.GRID_SIZE : Int) := by
  simp [InBounds, and_assoc]

theorem setCell_cells (g : Grid) (x y : Int) (c : Cell) (i j : Int) :
    (g.setCell x y c).cells i j = if i = x ∧ j = y then c else g.cells i j := rfl

theorem setCell_count (g : Grid) (x y : Int) (c : Cell) :
    (g.setCell x y c).discoveredCellCount = g.discoveredCellCount := rfl

theorem markDiscovered_cells (g : Grid) (x y i j : Int) :
    (markDiscovered g x y).cells i j =
      if i = x ∧ j = y then { g.cells x y with bDiscovered := true } else g.cells i j := rfl

theorem markDiscovered_count (g : Grid) (x y : Int) :
    (markDiscovered g x y).discoveredCellCount = g.discoveredCellCount + 1 := rfl

theorem revealGuard_iff (c : Cell) :
    revealGuard c = true ↔ c.bDiscovered = false ∧ c.bFlagged = false ∧ c.bPlanted = false := by
  simp [revealGuard, and_assoc]

theorem Safe.guard {k : Consts} {g : Grid} {x y : Int} (h : Safe k g x y) :
    revealGuard (g.cells x y) = true :=
  (revealGuard_iff _).2 ⟨h.2.1, h.2.2.1, h.2.2.2⟩

/-! ## Counting -/

theorem countP_flip {α : Type} (l : List α) (a : α) (p q : α → Bool) (hl : l.Nodup)
    (ha : a ∈ l) (hp : p a = false) (hq : q a = true)
    (h : ∀ b ∈ l, b ≠ a → q b = p b) : l.countP q = l.countP p + 1 := by
  induction l with
  | nil => simp at ha
  | cons b t ih =>
    have hnd := List.nodup_cons.1 hl
    by_cases hba : b = a
    · subst hba
      have ht : t.countP q = t.countP p := by
        apply List.countP_congr
        intro c hc
        have hne : c ≠ b := fun e => hnd.1 (e ▸ hc)
        simp [h c (List.mem_cons_of_mem _ hc) hne]
      simp [List.countP_cons, hp, hq, ht]
    · have ha' : a ∈ t := by
        rcases List.mem_cons.1 ha with e | e
        · exact absurd e.symm hba
        · exact e
      have ih' := ih hnd.2 ha' (fun c hc hne => h c (List.mem_cons_of_mem _ hc) hne)
      have hb : q b = p b := h b (List.mem_cons_self _ _) hba
      simp [List.countP_cons, hb, ih']
      omega

theorem coords_nodup (k : Consts) : (coords k).Nodup :=
  List.Nodup.product (List.nodup_range _) (List.nodup_range _)

theorem mem_coords (k : Consts) (c : Nat × Nat) :
    c ∈ coords k ↔ c.1 < k.GRID_SIZE ∧ c.2 < k.GRID_SIZE := by
  obtain ⟨a, b⟩ := c
  unfold coords
  rw [List.pair_mem_product]
  simp

theorem coords_length (k : Consts) : (coords k).length = k.GRID_SIZE * k.GRID_SIZE := by
  unfold coords
  exact (List.length_product _ _).trans (by simp)

theorem mem_coords_inBounds (k : Consts) (c : Nat × Nat) (h : c ∈ coords k) :
    InBounds k (c.1 : Int) (c.2 : Int) = true := by
  rw [mem_coords] at h
  rw [InBounds_iff]
  omega

theorem countCells_congr (k : Consts) (p q : Cell → Bool) (g g2 : Grid)
    (h : ∀ i j, InBounds k i j = true → p (g2.cells i j) = q (g.cells i j)) :
    countCells k p g2 = countCells k q g := by
  unfold countCells
  apply List.countP_congr
  intro c hc
  simp [h _ _ (mem_coords_inBounds k c hc)]

theorem countCells_mono (k : Consts) (p q : Cell → Bool) (g g2 : Grid)
    (h : ∀ i j, InBounds k i j = true → p (g2.cells i j) = true → q (g.cells i j) = true) :
    countCells k p g2 ≤ countCells k q g := by
  unfold countCells
  apply List.countP_mono_left
  intro c hc hp
  exact h _ _ (mem_coords_inBounds k c hc) hp

theorem countCells_flip (k : Consts) (p : Cell → Bool) (g g2 : Grid) (x y : Int)
    (hxy : InBounds k x y = true) (hp : p (g.cells x y) = false)
    (hq : p (g2.cells x y) = true)
    (h : ∀ i j, ¬ (i = x ∧ j = y) → p (g2.cells i j) = p (g.cells i j)) :
    countCells k p g2 = countCells k p g + 1 := by
  rw [InBounds_iff] at hxy
  unfold countCells
  have hx : ((x.toNat : Nat) : Int) = x := Int.toNat_of_nonneg hxy.1
  have hy : ((y.toNat : Nat) : Int) = y := Int.toNat_of_nonneg hxy.2.2.1
  apply countP_flip (coords k) (x.toNat, y.toNat) _ _ (coords_nodup k)
  · rw [mem_coords]
    constructor
    · have := hxy.2.1
      omega
    · have := hxy.2.2.2
      omega
  · simpa [hx, hy] using hp
  · simpa [hx, hy] using hq
  · intro b _ hb
    have : ¬ ((b.1 : Int) = x ∧ (b.2 : Int) = y) := by
      rintro ⟨e1, e2⟩
      apply hb
      apply Prod.ext
      · simp only; omega
      · simp only; omega
    exact h _ _ this

theorem countCells_add_le (k : Consts) (p q : Cell → Bool) (g : Grid)
    (h : ∀ c : Cell, p c = true → q c = false) :
    countCells k p g + countCells k q g ≤ k.GRID_SIZE * k.GRID_SIZE := by
  unfold countCells
  rw [← coords_length k]
  generalize coords k = l
  induction l with
  | nil => simp
  | cons c t ih =>
    simp only [List.countP_cons, List.length_cons]
    by_cases hp : p (g.cells (c.1 : Int) (c.2 : Int)) = true
    · simp [hp, h _ hp]
      omega
    · simp [hp]
      split <;> omega

/-! ## The relation `Ext` -/

theorem Ext.same (k : Consts) (g : Grid) : Ext k g g :=
  ⟨fun _ _ => Or.inl rfl, rfl⟩

theorem Ext.flagged {k : Consts} {g g2 : Grid} (h : Ext k g g2) (i j : Int) :
    (g2.cells i j).bFlagged = (g.cells i j).bFlagged := by
  rcases h.cell i j with e | ⟨_, _, e⟩ <;> rw [e]

theorem Ext.planted {k : Consts} {g g2 : Grid} (h : Ext k g g2) (i j : Int) :
    (g2.cells i j).bPlanted = (g.cells i j).bPlanted := by
  rcases h.cell i j with e | ⟨_, _, e⟩ <;> rw [e]

theorem Ext.neighbor {k : Consts} {g g2 : Grid} (h : Ext k g g2) (i j : Int) :
    (g2.cells i j).explosiveNeighbor = (g.cells i j).explosiveNeighbor := by
  rcases h.cell i j with e | ⟨_, _, e⟩ <;> rw [e]

theorem Ext.disc_mono {k : Consts} {g g2 : Grid} (h : Ext k g g2) (i j : Int)
    (hd : (g.cells i j).bDiscovered = true) : (g2.cells i j).bDiscovered = true := by
  rcases h.cell i j with e | ⟨_, _, e⟩ <;> rw [e]
  exact hd

theorem Ext.comp {k : Consts} {a b c : Grid} (h1 : Ext k a b) (h2 : Ext k b c) :
    Ext k a c := by
  refine ⟨fun i j => ?_, h2.count.trans h1.count⟩
  rcases h2.cell i j with e2 | ⟨hb2, hg2, e2⟩
  · rcases h1.cell i j with e1 | ⟨hb1, hg1, e1⟩
    · exact Or.inl (e2.trans e1)
    · exact Or.inr ⟨hb1, hg1, e2.trans e1⟩
  · rcases h1.cell i j with e1 | ⟨_, _, e1⟩
    · rw [e1] at hg2 e2
      exact Or.inr ⟨hb2, hg2, e2⟩
    · rw [e1] at hg2
      simp [revealGuard] at hg2

theorem Ext.minedCount_eq {k : Consts} {g g2 : Grid} (h : Ext k g g2) :
    minedCount k g2 = minedCount k g :=
  countCells_congr k _ _ g g2 (fun i j _ => h.planted i j)

theorem Ext.undiscovered_mono {k : Consts} {g g2 : Grid} (h : Ext k g g2) :
    undiscovered k g2 ≤ undiscovered k g := by
  apply countCells_mono
  intro i j _ hd
  by_contra hc
  have := h.disc_mono i j (by simpa using hc)
  simp [this] at hd

theorem Ext_mark (k : Consts) (g : Grid) (x y : Int) (h : Safe k g x y) :
    Ext k g (markDiscovered g x y) := by
  refine ⟨fun i j => ?_, ?_⟩
  · rw [markDiscovered_cells]
    by_cases hij : i = x ∧ j = y
    · rw [if_pos hij]
      obtain ⟨rfl, rfl⟩ := hij
      exact Or.inr ⟨h.1, h.guard, rfl⟩
    · rw [if_neg hij]
      exact Or.inl rfl
  · have hc : safeDiscovered k (markDiscovered g x y) = safeDiscovered k g + 1 := by
      apply countCells_flip k _ g _ x y h.1
      · simp [h.2.1]
      · simp [markDiscovered_cells, h.2.2.2]
      · intro i j hij
        rw [markDiscovered_cells, if_neg hij]
    rw [hc, markDiscovered_count]
    push_cast
    ring

theorem undiscovered_mark (k : Consts) (g : Grid) (x y : Int) (h : Safe k g x y) :
    undiscovered k g = undiscovered k (markDiscovered g x y) + 1 := by
  apply countCells_flip k _ (markDiscovered g x y) g x y h.1
  · simp [markDiscovered_cells]
  · simp [h.2.1]
  · intro i j hij
    rw [markDiscovered_cells, if_neg hij]

theorem Closed.comp_closed {k : Consts} {a b c : Grid} (h1 : Ext k a b) (h2 : Ext k b c)
    (c1 : Closed k a b) (c2 : Closed k b c) : Closed k a c := by
  intro i j hda hdc hn d hd hd0 hbd hfl hpl
  by_cases hdb : (b.cells i j).bDiscovered = true
  · exact h2.disc_mono _ _ (c1 i j hda hdb hn d hd hd0 hbd hfl hpl)
  · apply c2 i j (by simpa using hdb) hdc _ d hd hd0 hbd
    · rw [h1.flagged]; exact hfl
    · rw [h1.planted]; exact hpl
    · rw [h1.neighbor]; exact hn

/-! ## The flood fill -/

theorem revealNeighbors_total (k : Consts) (call : Grid → Int → Int → Option (Int × Grid))
    (gx gy : Int) (J : List (Int × Int) → Grid → Prop)
    (hskip : ∀ d rest acc, J (d :: rest) acc →
      ((d.1 = 0 ∧ d.2 = 0) ∨ InBounds k (gx + d.1) (gy + d.2) = false ∨
        revealGuard (acc.cells (gx + d.1) (gy + d.2)) = false) → J rest acc)
    (hcall : ∀ d rest acc, J (d :: rest) acc → ¬ (d.1 = 0 ∧ d.2 = 0) →
      InBounds k (gx + d.1) (gy + d.2) = true →
      revealGuard (acc.cells (gx + d.1) (gy + d.2)) = true →
      ∃ res, call acc (gx + d.1) (gy + d.2) = some res ∧ J rest res.2) :
    ∀ l g, J l g → ∃ g2, revealNeighbors k call gx gy l g = some g2 ∧ J [] g2 := by
  intro l
  induction l with
  | nil =>
    intro g h
    exact ⟨g, rfl, h⟩
  | cons d rest ih =>
    intro g h
    unfold revealNeighbors
    by_cases h0 : d.1 = 0 ∧ d.2 = 0
    · rw [if_pos h0]
      exact ih g (hskip d rest g h (Or.inl h0))
    · rw [if_neg h0]
      by_cases hb : InBounds k (gx + d.1) (gy + d.2) = true
      · rw [if_pos hb]
        by_cases hg : revealGuard (g.cells (gx + d.1) (gy + d.2)) = true
        · rw [if_pos hg]
          obtain ⟨res, hres, hJ⟩ := hcall d rest g h h0 hb hg
          rw [hres]
          exact ih res.2 hJ
        · rw [if_neg hg]
          exact ih g (hskip d rest g h (Or.inr (Or.inr (by simpa using hg))))
      · rw [if_neg hb]
        exact ih g (hskip d rest g h (Or.inr (Or.inl (by simpa using hb))))

theorem CellRevealFuel_unfold_safe (k : Consts) (fuel : Nat) (g : Grid) (x y : Int)
    (h : Safe k g x y) :
    CellRevealFuel k (fuel + 1) g x y =
      match (if (g.cells x y).explosiveNeighbor > 0 then some (markDiscovered g x y)
        else revealNeighbors k (CellRevealFuel k fuel) x y offsets (markDiscovered g x y)) with
      | none => none
      | some g2 => some (winCode k g2, g2) := by
  obtain ⟨hb, hd, hf, hp⟩ := h
  simp only [CellRevealFuel, hb, hd, hf, hp]
  rfl

theorem CellRevealFuel_safe (k : Consts) :
    ∀ fuel g x y, undiscovered k g < fuel → Safe k g x y →
      ∃ g2, CellRevealFuel k fuel g x y = some (winCode k g2, g2) ∧ Post k g x y g2 := by
  intro fuel
  induction fuel with
  | zero =>
    intro g x y h
    omega
  | succ fuel ih =>
    intro g x y hfuel hsafe
    have hmark := Ext_mark k g x y hsafe
    have hU := undiscovered_mark k g x y hsafe
    have htarget : ((markDiscovered g x y).cells x y).bDiscovered = true := by
      simp [markDiscovered_cells]
    rw [CellRevealFuel_unfold_safe k fuel g x y hsafe]
    by_cases hn : (g.cells x y).explosiveNeighbor > 0
    · rw [if_pos hn]
      refine ⟨markDiscovered g x y, rfl, hmark, htarget, ?_⟩
      intro i j hdi hdi2 hexp
      by_cases hij : i = x ∧ j = y
      · obtain ⟨rfl, rfl⟩ := hij
        exact absurd hn hexp
      · rw [markDiscovered_cells, if_neg hij, hdi] at hdi2
        exact absurd hdi2 (by simp)
    · rw [if_neg hn]
      obtain ⟨g2, hg2, hJ⟩ := revealNeighbors_total k (CellRevealFuel k fuel) x y
        (fun l acc => undiscovered k acc < fuel ∧ Ext k (markDiscovered g x y) acc ∧
          Closed k (markDiscovered g x y) acc ∧
          ∀ d ∈ offsets, d ∉ l → ¬ (d.1 = 0 ∧ d.2 = 0) →
            InBounds k (x + d.1) (y + d.2) = true →
            (g.cells (x + d.1) (y + d.2)).bFlagged = false →
            (g.cells (x + d.1) (y + d.2)).bPlanted = false →
            (acc.cells (x + d.1) (y + d.2)).bDiscovered = true)
        (by
          rintro d rest acc ⟨h1, h2, h3, h4⟩ hcase
          refine ⟨h1, h2, h3, ?_⟩
          intro e he hrest he0 hbe hfe hpe
          by_cases hed : e = d
          · subst hed
            rcases hcase with h0 | hb | hg
            · exact absurd h0 he0
            · rw [hb] at hbe
              exact absurd hbe (by simp)
            · have hfl := h2.flagged (x + e.1) (y + e.2)
              have hpl := h2.planted (x + e.1) (y + e.2)
              rw [hmark.flagged, hfe] at hfl
              rw [hmark.planted, hpe] at hpl
              simpa [revealGuard, hfl, hpl] using hg
          · exact h4 e he (by simp [hed, hrest]) he0 hbe hfe hpe)
        (by
          rintro d rest acc ⟨h1, h2, h3, h4⟩ h0 hb hg
          have hs : Safe k acc (x + d.1) (y + d.2) := ⟨hb, (revealGuard_iff _).1 hg⟩
          obtain ⟨acc2, hcall, hpost⟩ := ih acc (x + d.1) (y + d.2) h1 hs
          refine ⟨_, hcall, ?_, h2.comp hpost.ext, Closed.comp_closed h2 hpost.ext h3 hpost.closed, ?_⟩
          · exact lt_of_le_of_lt hpost.ext.undiscovered_mono h1
          · intro e he hrest he0 hbe hfe hpe
            by_cases hed : e = d
            · subst hed
              exact hpost.target
            · exact hpost.ext.disc_mono _ _ (h4 e he (by simp [hed, hrest]) he0 hbe hfe hpe))
        offsets (markDiscovered g x y)
        ⟨by omega, Ext.same k _, fun i j hdi hdi2 => absurd hdi2 (by simp [hdi]),
          fun d hd hnd => absurd hd hnd⟩
      rw [hg2]
      obtain ⟨_, hext, hclosed, hnb⟩ := hJ
      refine ⟨g2, rfl, hmark.comp hext, hext.disc_mono _ _ htarget, ?_⟩
      intro i j hdi hdi2 hexp d hd hd0 hbd hfl hpl
      by_cases hij : i = x ∧ j = y
      · obtain ⟨rfl, rfl⟩ := hij
        exact hnb d hd (by simp) hd0 hbd hfl hpl
      · apply hclosed i j _ hdi2 _ d hd hd0 hbd
        · rw [hmark.flagged]; exact hfl
        · rw [hmark.planted]; exact hpl
        · rw [markDiscovered_cells, if_neg hij]; exact hdi
        · rw [hmark.neighbor]; exact hexp

/-! ## `CellReveal` case by case -/

theorem undiscovered_le (k : Consts) (g : Grid) :
    undiscovered k g ≤ k.GRID_SIZE * k.GRID_SIZE := by
  unfold undiscovered countCells
  rw [← coords_length k]
  exact List.countP_le_length _

theorem CellReveal_safe (k : Consts) (g : Grid) (x y : Int) (h : Safe k g x y) :
    ∃ g2, CellReveal k g x y = some (winCode k g2, g2) ∧ Post k g x y g2 :=
  CellRevealFuel_safe k _ g x y (Nat.lt_succ_of_le (undiscovered_le k g)) h

theorem CellReveal_noop (k : Consts) (g : Grid) (x y : Int)
    (h : InBounds k x y = false ∨ (g.cells x y).bDiscovered = true ∨
      (g.cells x y).bFlagged = true) :
    CellReveal k g x y = some (0, g) := by
  unfold CellReveal
  simp only [CellRevealFuel]
  by_cases hb : InBounds k x y = true
  · have hdf : ((g.cells x y).bDiscovered || (g.cells x y).bFlagged) = true := by
      rcases h with h | h | h
      · rw [hb] at h
        exact absurd h (by simp)
      · simp [h]
      · simp [h]
    simp [hb, hdf]
  · simp [hb]

theorem CellReveal_mine (k : Consts) (g : Grid) (x y : Int) (hb : InBounds k x y = true)
    (hd : (g.cells x y).bDiscovered = false) (hf : (g.cells x y).bFlagged = false)
    (hp : (g.cells x y).bPlanted = true) :
    CellReveal k g x y =
      some (k.FAILURE, g.setCell x y { g.cells x y with bDiscovered := true }) := by
  unfold CellReveal
  simp [CellRevealFuel, hb, hd, hf, hp]

theorem CellReveal_numbered (k : Consts) (g : Grid) (x y : Int) (h : Safe k g x y)
    (hn : (g.cells x y).explosiveNeighbor > 0) :
    CellReveal k g x y =
      some (winCode k (markDiscovered g x y), markDiscovered g x y) := by
  unfold CellReveal
  rw [CellRevealFuel_unfold_safe k _ g x y h, if_pos hn]

theorem winCode_cases (k : Consts) (g : Grid) : winCode k g = 0 ∨ winCode k g = k.SUCCESS := by
  unfold winCode
  split
  · exact Or.inr rfl
  · exact Or.inl rfl

theorem CellReveal_unmined (k : Consts) (g : Grid) (x y : Int)
    (hp : InBounds k x y = true → (g.cells x y).bPlanted = false) :
    ∃ r g2, CellReveal k g x y = some (r, g2) ∧ Ext k g g2 ∧ (r = 0 ∨ r = k.SUCCESS) := by
  by_cases hs : Safe k g x y
  · obtain ⟨g2, h, hpost⟩ := CellReveal_safe k g x y hs
    exact ⟨_, g2, h, hpost.ext, winCode_cases k g2⟩
  · refine ⟨0, g, CellReveal_noop k g x y ?_, Ext.same k g, Or.inl rfl⟩
    by_contra hc
    push_neg at hc
    apply hs
    have hb : InBounds k x y = true := by simpa using hc.1
    exact ⟨hb, by simpa using hc.2.1, by simpa using hc.2.2, hp hb⟩

theorem CellReveal_total (k : Consts) (g : Grid) (x y : Int) :
    ∃ res, CellReveal k g x y = some res := by
  by_cases hp : InBounds k x y = true → (g.cells x y).bPlanted = false
  · obtain ⟨r, g2, h, _⟩ := CellReveal_unmined k g x y hp
    exact ⟨_, h⟩
  · push_neg at hp
    by_cases hdf : (g.cells x y).bDiscovered = true ∨ (g.cells x y).bFlagged = true
    · exact ⟨_, CellReveal_noop k g x y (Or.inr hdf)⟩
    · push_neg at hdf
      exact ⟨_, CellReveal_mine k g x y hp.1 (by simpa using hdf.1) (by simpa using hdf.2)
        (by simpa using hp.2)⟩

/-! ## `CellReveal` on an arbitrary board -/

/-- C7: on every board, revealing an in-bounds, undiscovered, unflagged, mined cell
returns `FAILURE`, sets `bDiscovered` of that cell (and nothing else in it), leaves
every other cell as it was and leaves `discoveredCellCount` as it was. -/
theorem reveal_mined_cell (k : Consts) (g : Grid) (x y : Int)
    (hb : InBounds k x y = true) (hd : (g.cells x y).bDiscovered = false)
    (hf : (g.cells x y).bFlagged = false) (hp : (g.cells x y).bPlanted = true) :
    ∃ g2, CellReveal k g x y = some (k.FAILURE, g2) ∧
      g2.cells x y = { g.cells x y with bDiscovered := true } ∧
      (g2.cells x y).bDiscovered = true ∧
      (∀ i j, ¬ (i = x ∧ j = y) → g2.cells i j = g.cells i j) ∧
      g2.discoveredCellCount = g.discoveredCellCount := by
  refine ⟨_, CellReveal_mine k g x y hb hd hf hp, ?_, ?_, ?_, rfl⟩
  · simp [setCell_cells]
  · simp [setCell_cells]
  · intro i j hij
    rw [setCell_cells, if_neg hij]

/-- C8: on every board, `CellReveal` at a coordinate that is out of bounds, or whose
cell is discovered, or whose cell is flagged, returns `0` and the grid afterwards is
the grid before (all cells and `discoveredCellCount`). -/
theorem reveal_noop (k : Consts) (g : Grid) (x y : Int)
    (h : InBounds k x y = false ∨ (g.cells x y).bDiscovered = true ∨
      (g.cells x y).bFlagged = true) :
    CellReveal k g x y = some (0, g) :=
  CellReveal_noop k g x y h

/-- C9: on every board, a reveal of a cell that is not mined returns, and every mined
cell is afterwards exactly as before; in particular its `bDiscovered` is the same. -/
theorem reveal_keeps_mines_hidden (k : Consts) (g : Grid) (x y : Int)
    (hp : InBounds k x y = true → (g.cells x y).bPlanted = false) :
    ∃ r g2, CellReveal k g x y = some (r, g2) ∧
      ∀ i j, (g.cells i j).bPlanted = true →
        g2.cells i j = g.cells i j ∧
        (g2.cells i j).bDiscovered = (g.cells i j).bDiscovered := by
  obtain ⟨r, g2, h, hext, _⟩ := CellReveal_unmined k g x y hp
  refine ⟨r, g2, h, fun i j hm => ?_⟩
  rcases hext.cell i j with e | ⟨_, hg, _⟩
  · exact ⟨e, by rw [e]⟩
  · rw [revealGuard_iff] at hg
    rw [hg.2.2] at hm
    exact absurd hm (by simp)

/-- C10: on every board whose counter is below `INT_MAX` (so that
`discoveredCellCount++` does not overflow), revealing an in-bounds, undiscovered,
unflagged, unmined cell whose count is positive discovers that cell only: the cell
gets `bDiscovered = true` and is otherwise as before, `discoveredCellCount` grows by
one, every other cell is as before, and the result is `0` unless the new count reaches
`GRID_SIZE * GRID_SIZE - BOMB_COUNT`, in which case it is `SUCCESS`. -/
theorem reveal_numbered_cell (k : Consts) (g : Grid) (x y : Int) (hs : Safe k g x y)
    (hn : (g.cells x y).explosiveNeighbor > 0)
    (hmax : g.discoveredCellCount < INT_MAX) :
    ∃ r g2, CellReveal k g x y = some (r, g2) ∧
      g2.cells x y = { g.cells x y with bDiscovered := true } ∧
      (g2.cells x y).bDiscovered = true ∧
      g2.discoveredCellCount = g.discoveredCellCount + 1 ∧
      g2.discoveredCellCount ≤ INT_MAX ∧
      (∀ i j, ¬ (i = x ∧ j = y) → g2.cells i j = g.cells i j) ∧
      (g.discoveredCellCount + 1 <
          (k.GRID_SIZE : Int) * (k.GRID_SIZE : Int) - k.BOMB_COUNT → r = 0) ∧
      ((k.GRID_SIZE : Int) * (k.GRID_SIZE : Int) - k.BOMB_COUNT ≤
          g.discoveredCellCount + 1 → r = k.SUCCESS) := by
  refine ⟨_, _, CellReveal_numbered k g x y hs hn, ?_, ?_, rfl, ?_, ?_, ?_, ?_⟩
  · simp [markDiscovered_cells]
  · simp [markDiscovered_cells]
  · rw [markDiscovered_count]
    omega
  · intro i j hij
    rw [markDiscovered_cells, if_neg hij]
  · intro h
    simp only [winCode, markDiscovered_count]
    rw [if_neg (by omega)]
  · intro h
    simp only [winCode, markDiscovered_count]
    rw [if_pos (by omega)]

/-! ## `GridPlantBomb` -/

theorem adjCount_eq (a b : Int) :
    adjCount a b =
      if (-1 ≤ a ∧ a ≤ 1 ∧ -1 ≤ b ∧ b ≤ 1 ∧ ¬ (a = 0 ∧ b = 0)) then 1 else 0 := by
  unfold adjCount offsets
  simp only [List.countP_cons, List.countP_nil]
  simp
  split_ifs <;> omega

theorem adjCount_neg (a b : Int) : adjCount (-a) (-b) = adjCount a b := by
  rw [adjCount_eq, adjCount_eq]
  split_ifs <;> omega

theorem countP_add {α : Type} (l : List α) (p q r : α → Bool)
    (h : ∀ d ∈ l, p d = (q d || r d) ∧ ¬ (q d = true ∧ r d = true)) :
    l.countP p = l.countP q + l.countP r := by
  induction l with
  | nil => simp
  | cons a t ih =>
    have ih' := ih (fun d hd => h d (List.mem_cons_of_mem _ hd))
    obtain ⟨h1, h2⟩ := h a (List.mem_cons_self _ _)
    simp only [List.countP_cons, ih', h1]
    cases hq : q a <;> cases hr : r a <;> simp_all <;> omega

theorem bumpNeighbors_cells (k : Consts) (rx ry : Int) :
    ∀ (l : List (Int × Int)) (g : Grid) (i j : Int),
      (bumpNeighbors k rx ry l g).cells i j =
        { g.cells i j with
          explosiveNeighbor :=
            (g.cells i j).explosiveNeighbor + (l.countP (bumpHits k rx ry i j) : Nat) } := by
  intro l
  induction l with
  | nil =>
    intro g i j
    simp [bumpNeighbors]
  | cons d rest ih =>
    intro g i j
    unfold bumpNeighbors
    by_cases hc : (InBounds k (rx + d.1) (ry + d.2) &&
        !(decide (d.1 = 0) && decide (d.2 = 0))) = true
    · rw [if_pos hc, ih, setCell_cells]
      by_cases hij : i = rx + d.1 ∧ j = ry + d.2
      · have hh : bumpHits k rx ry i j d = true := by
          unfold bumpHits
          rw [hc]
          simpa using hij
        rw [if_pos hij, List.countP_cons_of_pos _ _ hh]
        obtain ⟨rfl, rfl⟩ := hij
        simp only [Nat.cast_add, Nat.cast_one]
        congr 1
        ring
      · have hh : ¬ bumpHits k rx ry i j d = true := by
          unfold bumpHits
          rw [hc]
          simpa using hij
        rw [if_neg hij, List.countP_cons_of_neg _ _ hh]
    · have hh : ¬ bumpHits k rx ry i j d = true := by
        unfold bumpHits
        intro hcon
        apply hc
        simp only [Bool.and_eq_true] at hcon ⊢
        exact hcon.1
      rw [if_neg hc, ih, List.countP_cons_of_neg _ _ hh]

theorem bumpNeighbors_count (k : Consts) (rx ry : Int) :
    ∀ (l : List (Int × Int)) (g : Grid),
      (bumpNeighbors k rx ry l g).discoveredCellCount = g.discoveredCellCount := by
  intro l
  induction l with
  | nil => intro g; rfl
  | cons d rest ih =>
    intro g
    unfold bumpNeighbors
    split
    · rw [ih]; rfl
    · rw [ih]

theorem plantAt_cells (k : Consts) (g : Grid) (rx ry i j : Int) :
    (plantAt k g rx ry).cells i j =
      { bDiscovered := (g.cells i j).bDiscovered,
        bFlagged := (g.cells i j).bFlagged,
        bPlanted := (g.cells i j).bPlanted || decide (i = rx ∧ j = ry),
        explosiveNeighbor :=
          (g.cells i j).explosiveNeighbor + (offsets.countP (bumpHits k rx ry i j) : Nat) } := by
  unfold plantAt
  rw [bumpNeighbors_cells, setCell_cells]
  by_cases hij : i = rx ∧ j = ry
  · obtain ⟨rfl, rfl⟩ := hij
    simp
  · simp [hij]

theorem plantAt_count (k : Consts) (g : Grid) (rx ry : Int) :
    (plantAt k g rx ry).discoveredCellCount = g.discoveredCellCount := by
  unfold plantAt
  rw [bumpNeighbors_count]
  rfl

theorem bumpHits_count (k : Consts) (rx ry i j : Int) (hij : InBounds k i j = true) :
    offsets.countP (bumpHits k rx ry i j) = adjCount (i - rx) (j - ry) := by
  unfold adjCount
  apply List.countP_congr
  intro d _
  unfold bumpHits
  by_cases he : i = rx + d.1 ∧ j = ry + d.2
  · obtain ⟨rfl, rfl⟩ := he
    simp [hij]
  · have he2 : ¬ (d.1 = i - rx ∧ d.2 = j - ry) := by
      intro hc
      apply he
      omega
    simp [he, he2]

theorem mineNeighbors_plantAt (k : Consts) (g : Grid) (rx ry i j : Int)
    (hb : InBounds k rx ry = true) (hp : (g.cells rx ry).bPlanted = false) :
    mineNeighbors k (plantAt k g rx ry) i j =
      mineNeighbors k g i j + adjCount (rx - i) (ry - j) := by
  unfold mineNeighbors adjCount
  apply countP_add
  intro d _
  rw [plantAt_cells]
  by_cases he : i + d.1 = rx ∧ j + d.2 = ry
  · have he2 : d.1 = rx - i ∧ d.2 = ry - j := by omega
    obtain ⟨e1, e2⟩ := he
    simp [e1, e2, hb, hp, he2]
  · have he2 : ¬ (d.1 = rx - i ∧ d.2 = ry - j) := by
      intro hc
      apply he
      omega
    simp [he, he2]

theorem CountsAccurate_plantAt (k : Consts) (g : Grid) (rx ry : Int)
    (hb : InBounds k rx ry = true) (hp : (g.cells rx ry).bPlanted = false)
    (h : CountsAccurate k g) : CountsAccurate k (plantAt k g rx ry) := by
  intro i j hij
  rw [mineNeighbors_plantAt k g rx ry i j hb hp, plantAt_cells, bumpHits_count k rx ry i j hij]
  have e : adjCount (rx - i) (ry - j) = adjCount (i - rx) (j - ry) := by
    rw [← adjCount_neg (i - rx) (j - ry)]
    congr 1 <;> ring
  simp only [h i j hij, e]
  push_cast
  ring

theorem minedCount_plantAt (k : Consts) (g : Grid) (rx ry : Int)
    (hb : InBounds k rx ry = true) (hp : (g.cells rx ry).bPlanted = false) :
    minedCount k (plantAt k g rx ry) = minedCount k g + 1 := by
  apply countCells_flip k _ g _ rx ry hb
  · exact hp
  · simp [plantAt_cells]
  · intro i j hij
    simp [plantAt_cells, hij]

theorem Planted.start (k : Consts) (avoid : Int × Int) (g : Grid) : Planted k avoid g g 0 :=
  ⟨le_refl _, by simp, fun _ _ => rfl, fun _ _ => rfl, rfl, fun h => h, fun h => h⟩

theorem Planted.step {k : Consts} {avoid : Int × Int} {g0 g : Grid} {placed : Int}
    (h : Planted k avoid g0 g placed) (rx ry : Int) (hb : InBounds k rx ry = true)
    (hp : (g.cells rx ry).bPlanted = false) (hav : ¬ (rx = avoid.1 ∧ ry = avoid.2)) :
    Planted k avoid g0 (plantAt k g rx ry) (placed + 1) := by
  refine ⟨by have := h.nonneg; omega, ?_, ?_, ?_, ?_, ?_, ?_⟩
  · rw [minedCount_plantAt k g rx ry hb hp]
    have := h.mined
    push_cast
    omega
  · intro i j
    rw [plantAt_cells]
    exact h.disc i j
  · intro i j
    rw [plantAt_cells]
    exact h.flag i j
  · rw [plantAt_count]
    exact h.count
  · intro h0
    exact CountsAccurate_plantAt k g rx ry hb hp (h.accurate h0)
  · intro h0
    rw [plantAt_cells]
    have hne : ¬ (avoid.1 = rx ∧ avoid.2 = ry) := fun hc => hav ⟨hc.1.symm, hc.2.symm⟩
    simp [h.avoided h0, hne]

theorem plantLoop_spec (k : Consts) (avoid : Int × Int) (bombCount : Int)
    (hbc : bombCount ≤ (k.GRID_SIZE : Int) * (k.GRID_SIZE : Int) - 1) (g0 : Grid) :
    ∀ (rand : List (Nat × Nat)) (g : Grid) (placed : Int) (g2 : Grid),
      Planted k avoid g0 g placed →
      plantLoop k avoid bombCount rand g placed = some g2 →
      ∃ placed2, Planted k avoid g0 g2 placed2 ∧ ¬ placed2 < bombCount ∧
        (placed2 ≤ bombCount ∨ placed2 = placed) := by
  intro rand
  induction rand with
  | nil =>
    intro g placed g2 hpl hrun
    unfold plantLoop at hrun
    by_cases hlt : placed < bombCount
    · rw [if_pos hlt] at hrun
      exact absurd hrun (by simp)
    · rw [if_neg hlt] at hrun
      cases hrun
      exact ⟨placed, hpl, hlt, Or.inr rfl⟩
  | cons r rest ih =>
    intro g placed g2 hpl hrun
    unfold plantLoop at hrun
    by_cases hlt : placed < bombCount
    · rw [if_pos hlt] at hrun
      simp only at hrun
      by_cases hav : (r.1 : Int) % (k.GRID_SIZE : Int) = avoid.1 ∧
          (r.2 : Int) % (k.GRID_SIZE : Int) = avoid.2
      · rw [if_pos hav] at hrun
        exact ih g placed g2 hpl hrun
      · rw [if_neg hav] at hrun
        by_cases hp : (g.cells ((r.1 : Int) % (k.GRID_SIZE : Int))
            ((r.2 : Int) % (k.GRID_SIZE : Int))).bPlanted = true
        · rw [if_pos hp] at hrun
          exact ih g placed g2 hpl hrun
        · rw [if_neg hp] at hrun
          have hN : (0 : Int) < (k.GRID_SIZE : Int) := by
            rcases Nat.eq_zero_or_pos k.GRID_SIZE with h0 | h0
            · have := hpl.nonneg
              rw [h0] at hbc
              simp at hbc
              omega
            · exact_mod_cast h0
          have hb : InBounds k ((r.1 : Int) % (k.GRID_SIZE : Int))
              ((r.2 : Int) % (k.GRID_SIZE : Int)) = true := by
            rw [InBounds_iff]
            exact ⟨Int.emod_nonneg _ (ne_of_gt hN), Int.emod_lt_of_pos _ hN,
              Int.emod_nonneg _ (ne_of_gt hN), Int.emod_lt_of_pos _ hN⟩
          obtain ⟨placed2, h1, h2, h3⟩ := ih _ (placed + 1) g2
            (hpl.step _ _ hb (by simpa using hp) hav) hrun
          refine ⟨placed2, h1, h2, ?_⟩
          rcases h3 with h3 | h3
          · exact Or.inl h3
          · exact Or.inl (by omega)
    · rw [if_neg hlt] at hrun
      cases hrun
      exact ⟨placed, hpl, hlt, Or.inr rfl⟩

theorem GridPlantBomb_spec (k : Consts) (g g2 : Grid) (bombCount : Int) (avoid : Int × Int)
    (rand : List (Nat × Nat)) (h : GridPlantBomb k g bombCount avoid rand = some g2) :
    ∃ placed, Planted k avoid g g2 placed ∧
      (0 ≤ bombCount → bombCount ≤ (k.GRID_SIZE : Int) * (k.GRID_SIZE : Int) - 1 →
        placed = bombCount) := by
  unfold GridPlantBomb at h
  simp only at h
  obtain ⟨placed, h1, h2, h3⟩ := plantLoop_spec k avoid _ (by split <;> omega) g rand g 0 g2
    (Planted.start k avoid g) h
  refine ⟨placed, h1, fun h0 hle => ?_⟩
  rw [if_neg (by omega)] at h2 h3
  have := h1.nonneg
  omega

theorem minedCount_of_unmined (k : Consts) (g : Grid)
    (h : ∀ i j, (g.cells i j).bPlanted = false) : minedCount k g = 0 := by
  unfold minedCount countCells
  rw [List.countP_eq_zero]
  intro c _
  simp [h]

theorem mineNeighbors_of_unmined (k : Consts) (g : Grid)
    (h : ∀ i j, (g.cells i j).bPlanted = false) (x y : Int) : mineNeighbors k g x y = 0 := by
  unfold mineNeighbors
  rw [List.countP_eq_zero]
  intro c _
  simp [h]

theorem mineNeighbors_le (k : Consts) (g : Grid) (x y : Int) : mineNeighbors k g x y ≤ 8 := by
  have h : mineNeighbors k g x y ≤
      offsets.countP (fun d => !(decide (d.1 = 0) && decide (d.2 = 0))) := by
    unfold mineNeighbors
    apply List.countP_mono_left
    intro d _ hd
    simp only [Bool.and_eq_true] at hd
    exact hd.1.1
  have h8 : offsets.countP (fun d => !(decide (d.1 = 0) && decide (d.2 = 0))) = 8 := by
    decide
  omega

theorem Unplanted.accurate (k : Consts) {g : Grid} (h : Unplanted g) : CountsAccurate k g := by
  intro i j _
  rw [mineNeighbors_of_unmined k g (fun a b => (h.1 a b).2.1), (h.1 i j).2.2]
  rfl

theorem Unplanted_create : Unplanted GridCreate :=
  ⟨fun _ _ => ⟨rfl, rfl, rfl⟩, rfl⟩

/-- C4: for `0 ≤ M ≤ GRID_SIZE * GRID_SIZE - 1`, every cell to avoid and every sequence
of draws on which `GridPlantBomb` finishes, planting `M` bombs on the board of
`GridCreate` leaves exactly `M` mined cells, and the cell to avoid is not mined. -/
theorem plant_exact_count (k : Consts) (M : Int) (avoid : Int × Int)
    (rand : List (Nat × Nat)) (g2 : Grid) (h0 : 0 ≤ M)
    (hM : M ≤ (k.GRID_SIZE : Int) * (k.GRID_SIZE : Int) - 1)
    (h : GridPlantBomb k GridCreate M avoid rand = some g2) :
    (minedCount k g2 : Int) = M ∧ (g2.cells avoid.1 avoid.2).bPlanted = false := by
  obtain ⟨placed, hpl, hplaced⟩ := GridPlantBomb_spec k GridCreate g2 M avoid rand h
  have hm := hpl.mined
  rw [minedCount_of_unmined k GridCreate (fun _ _ => rfl), hplaced h0 hM] at hm
  exact ⟨by simpa using hm, hpl.avoided rfl⟩

/-- C5: after `GridPlantBomb` finishes on the board of `GridCreate`, `explosiveNeighbor`
of every cell of the grid, mined or not, is the number of its mined in-bounds
8-neighbours (the cell itself excluded), and lies between 0 and 8. -/
theorem plant_counts_accurate (k : Consts) (bombCount : Int) (avoid : Int × Int)
    (rand : List (Nat × Nat)) (g2 : Grid)
    (h : GridPlantBomb k GridCreate bombCount avoid rand = some g2) (i j : Int)
    (hij : InBounds k i j = true) :
    (g2.cells i j).explosiveNeighbor = (mineNeighbors k g2 i j : Int) ∧
      0 ≤ (g2.cells i j).explosiveNeighbor ∧ (g2.cells i j).explosiveNeighbor ≤ 8 := by
  obtain ⟨placed, hpl, _⟩ := GridPlantBomb_spec k GridCreate g2 bombCount avoid rand h
  have hacc := hpl.accurate (Unplanted_create.accurate k) i j hij
  have hle := mineNeighbors_le k g2 i j
  rw [hacc]
  omega

/-! ## Reachable boards -/

theorem CellReveal_cases (k : Consts) (g : Grid) (x y : Int) :
    CellReveal k g x y = some (0, g) ∨
    (InBounds k x y = true ∧ (g.cells x y).bDiscovered = false ∧
      (g.cells x y).bFlagged = false ∧ (g.cells x y).bPlanted = true ∧
      CellReveal k g x y =
        some (k.FAILURE, g.setCell x y { g.cells x y with bDiscovered := true })) ∨
    (Safe k g x y ∧
      ∃ g2, CellReveal k g x y = some (winCode k g2, g2) ∧ Post k g x y g2) := by
  by_cases hb : InBounds k x y = true
  · by_cases hd : (g.cells x y).bDiscovered = true
    · exact Or.inl (CellReveal_noop k g x y (Or.inr (Or.inl hd)))
    · by_cases hf : (g.cells x y).bFlagged = true
      · exact Or.inl (CellReveal_noop k g x y (Or.inr (Or.inr hf)))
      · by_cases hp : (g.cells x y).bPlanted = true
        · exact Or.inr (Or.inl ⟨hb, by simpa using hd, by simpa using hf, hp,
            CellReveal_mine k g x y hb (by simpa using hd) (by simpa using hf) hp⟩)
        · have hs : Safe k g x y :=
            ⟨hb, by simpa using hd, by simpa using hf, by simpa using hp⟩
          exact Or.inr (Or.inr ⟨hs, CellReveal_safe k g x y hs⟩)
  · exact Or.inl (CellReveal_noop k g x y (Or.inl (by simpa using hb)))

theorem Frame.same_frame (k : Consts) (g : Grid) : Frame k g g :=
  ⟨fun _ _ => rfl, fun _ _ => rfl, fun _ _ => rfl, fun _ _ h => h, rfl⟩

theorem Ext.frame {k : Consts} {g g2 : Grid} (h : Ext k g g2) : Frame k g g2 :=
  ⟨h.flagged, h.planted, h.neighbor, h.disc_mono, h.count⟩

theorem CellReveal_frame (k : Consts) (g : Grid) (x y : Int) (res : Int × Grid)
    (h : CellReveal k g x y = some res) : Frame k g res.2 := by
  rcases CellReveal_cases k g x y with h0 | ⟨hb, hd, hf, hp, h1⟩ | ⟨_, g2, h2, hpost⟩
  · rw [h0] at h
    cases h
    exact Frame.same_frame k g
  · rw [h1] at h
    cases h
    have hcell : ∀ i j, (g.setCell x y { g.cells x y with bDiscovered := true }).cells i j =
        if i = x ∧ j = y then { g.cells x y with bDiscovered := true } else g.cells i j :=
      fun i j => rfl
    refine ⟨fun i j => ?_, fun i j => ?_, fun i j => ?_, fun i j hdi => ?_, ?_⟩
    · simp only [hcell]
      split
      · next hij => obtain ⟨rfl, rfl⟩ := hij; rfl
      · rfl
    · simp only [hcell]
      split
      · next hij => obtain ⟨rfl, rfl⟩ := hij; rfl
      · rfl
    · simp only [hcell]
      split
      · next hij => obtain ⟨rfl, rfl⟩ := hij; rfl
      · rfl
    · simp only [hcell]
      split
      · rfl
      · exact hdi
    · simp only [setCell_count]
      have : safeDiscovered k (g.setCell x y { g.cells x y with bDiscovered := true }) =
          safeDiscovered k g := by
        apply countCells_congr
        intro i j _
        simp only [hcell]
        split
        · next hij => obtain ⟨rfl, rfl⟩ := hij; simp [hp, hd]
        · rfl
      rw [this]
  · rw [h2] at h
    cases h
    exact hpost.ext.frame

theorem CellFlag_cells (k : Consts) (g : Grid) (x y i j : Int) :
    (CellFlag k g x y).cells i j = g.cells i j ∨
      (InBounds k i j = true ∧ (g.cells i j).bDiscovered = false ∧
        (CellFlag k g x y).cells i j =
          { g.cells i j with bFlagged := !(g.cells i j).bFlagged }) := by
  unfold CellFlag
  by_cases hb : InBounds k x y = true
  · cases hd : (g.cells x y).bDiscovered
    · by_cases hij : i = x ∧ j = y
      · obtain ⟨rfl, rfl⟩ := hij
        right
        refine ⟨hb, hd, ?_⟩
        simp [hb, hd, setCell_cells]
      · left
        simp [hb, hd, setCell_cells, hij]
    · simp [hb, hd]
  · simp [hb]

theorem CellFlag_count (k : Consts) (g : Grid) (x y : Int) :
    (CellFlag k g x y).discoveredCellCount = g.discoveredCellCount := by
  unfold CellFlag
  split
  · rfl
  · split
    · rfl
    · rfl

theorem CellFlag_disc (k : Consts) (g : Grid) (x y i j : Int) :
    ((CellFlag k g x y).cells i j).bDiscovered = (g.cells i j).bDiscovered := by
  rcases CellFlag_cells k g x y i j with e | ⟨_, _, e⟩ <;> rw [e]

theorem CellFlag_planted (k : Consts) (g : Grid) (x y i j : Int) :
    ((CellFlag k g x y).cells i j).bPlanted = (g.cells i j).bPlanted := by
  rcases CellFlag_cells k g x y i j with e | ⟨_, _, e⟩ <;> rw [e]

theorem CellFlag_neighbor (k : Consts) (g : Grid) (x y i j : Int) :
    ((CellFlag k g x y).cells i j).explosiveNeighbor = (g.cells i j).explosiveNeighbor := by
  rcases CellFlag_cells k g x y i j with e | ⟨_, _, e⟩ <;> rw [e]

theorem CountsAccurate_congr (k : Consts) (g g2 : Grid)
    (hp : ∀ i j, (g2.cells i j).bPlanted = (g.cells i j).bPlanted)
    (hn : ∀ i j, (g2.cells i j).explosiveNeighbor = (g.cells i j).explosiveNeighbor)
    (h : CountsAccurate k g) : CountsAccurate k g2 := by
  intro i j hij
  have e : mineNeighbors k g2 i j = mineNeighbors k g i j := by
    unfold mineNeighbors
    apply List.countP_congr
    intro d _
    simp [hp]
  rw [hn, e]
  exact h i j hij

theorem safeDiscovered_congr (k : Consts) (g g2 : Grid)
    (hd : ∀ i j, (g2.cells i j).bDiscovered = (g.cells i j).bDiscovered)
    (hp : ∀ i j, (g2.cells i j).bPlanted = (g.cells i j).bPlanted) :
    safeDiscovered k g2 = safeDiscovered k g :=
  countCells_congr k _ _ g g2 (fun i j _ => by simp only [hd, hp])

theorem safeDiscovered_of_undiscovered (k : Consts) (g : Grid)
    (h : ∀ i j, (g.cells i j).bDiscovered = false) : safeDiscovered k g = 0 := by
  unfold safeDiscovered countCells
  rw [List.countP_eq_zero]
  intro c _
  simp [h]

theorem Reachable.inv {k : Consts} {p : Bool} {g : Grid} (h : Reachable k p g) :
    Inv k p g := by
  induction h with
  | create =>
    exact ⟨by
      rw [safeDiscovered_of_undiscovered k GridCreate (fun _ _ => rfl)]
      rfl, Unplanted_create.accurate k, fun _ => Unplanted_create⟩
  | @flag p g x y _ ih =>
    refine ⟨?_, ?_, fun hp => ?_⟩
    · rw [CellFlag_count, safeDiscovered_congr k g _ (CellFlag_disc k g x y)
        (CellFlag_planted k g x y)]
      exact ih.count
    · exact CountsAccurate_congr k g _ (CellFlag_planted k g x y)
        (CellFlag_neighbor k g x y) ih.accurate
    · obtain ⟨hc, h0⟩ := ih.unplanted hp
      refine ⟨fun i j => ?_, by rw [CellFlag_count]; exact h0⟩
      rw [CellFlag_disc, CellFlag_planted, CellFlag_neighbor]
      exact hc i j
  | @plant g g2 avoid rand _ hrun ih =>
    obtain ⟨placed, hpl, _⟩ := GridPlantBomb_spec k g g2 _ avoid rand hrun
    obtain ⟨hc, h0⟩ := ih.unplanted rfl
    refine ⟨?_, hpl.accurate ih.accurate, fun hp => by cases hp⟩
    rw [safeDiscovered_of_undiscovered k g2 (fun i j => by rw [hpl.disc]; exact (hc i j).1),
      hpl.count, h0]
    rfl
  | @reveal g x y res _ hrun ih =>
    have hf := CellReveal_frame k g x y res hrun
    refine ⟨?_, CountsAccurate_congr k g _ hf.planted hf.neighbor ih.accurate,
      fun hp => by cases hp⟩
    have := hf.count
    have := ih.count
    omega

/-- C1: on every board the operations of the game produce from `GridCreate` (any
sequence of `CellFlag` and `CellReveal`, the bombs planted once, before the first
reveal), `discoveredCellCount` is the number of cells discovered and not mined. -/
theorem discoveredCellCount_invariant (k : Consts) (p : Bool) (g : Grid)
    (h : Reachable k p g) : g.discoveredCellCount = (safeDiscovered k g : Int) :=
  h.inv.count

/-- C2: on a reachable board with exactly `BOMB_COUNT` bombs, the reveal of an
in-bounds, undiscovered, unflagged, unmined cell returns `SUCCESS` if and only if
afterwards `discoveredCellCount = GRID_SIZE * GRID_SIZE - BOMB_COUNT`, and returns `0`
otherwise (`SUCCESS` being a code other than `0`). -/
theorem reveal_win_iff (k : Consts) (p : Bool) (g : Grid) (x y : Int)
    (hr : Reachable k p g) (hm : (minedCount k g : Int) = k.BOMB_COUNT)
    (hs : Safe k g x y) (hS : k.SUCCESS ≠ 0) :
    ∃ r g2, CellReveal k g x y = some (r, g2) ∧
      (r = k.SUCCESS ↔
        g2.discoveredCellCount =
          (k.GRID_SIZE : Int) * (k.GRID_SIZE : Int) - k.BOMB_COUNT) ∧
      (r ≠ k.SUCCESS → r = 0) := by
  obtain ⟨g2, hcall, hpost⟩ := CellReveal_safe k g x y hs
  refine ⟨_, g2, hcall, ?_, ?_⟩
  · have h1 := hpost.ext.count
    have h2 := hr.inv.count
    have h3 := hpost.ext.minedCount_eq
    have h4 : safeDiscovered k g2 + minedCount k g2 ≤ k.GRID_SIZE * k.GRID_SIZE := by
      apply countCells_add_le
      intro c hc
      simp only [Bool.and_eq_true, Bool.not_eq_true'] at hc
      exact hc.2
    have h5 : ((safeDiscovered k g2 : Nat) : Int) + (minedCount k g2 : Nat) ≤
        (k.GRID_SIZE : Int) * (k.GRID_SIZE : Int) := by exact_mod_cast h4
    rw [h3] at h5
    unfold winCode
    constructor
    · intro hw
      by_cases hge : g2.discoveredCellCount ≥
          (k.GRID_SIZE : Int) * (k.GRID_SIZE : Int) - k.BOMB_COUNT
      · omega
      · rw [if_neg hge] at hw
        exact absurd hw.symm hS
    · intro he
      rw [if_pos (by omega)]
  · intro hne
    rcases winCode_cases k g2 with h0 | h0
    · exact h0
    · exact absurd h0 hne

/-- C6: safe first click.  On a board made by `GridCreate` and any number of
`CellFlag`, for every cell `c` (in bounds or not), every number of bombs and every
outcome of the draws on which `GridPlantBomb` with `c` to avoid finishes, `c` is not
mined afterwards and `CellReveal` of `c` returns `0` or `SUCCESS`, hence not
`FAILURE` (a code other than `0` and `SUCCESS`). -/
theorem first_click_safe (k : Consts) (g g1 : Grid) (c : Int × Int) (bombCount : Int)
    (rand : List (Nat × Nat)) (hr : Reachable k false g)
    (hplant : GridPlantBomb k g bombCount c rand = some g1)
    (hF0 : k.FAILURE ≠ 0) (hFS : k.FAILURE ≠ k.SUCCESS) :
    (g1.cells c.1 c.2).bPlanted = false ∧
      ∃ r g2, CellReveal k g1 c.1 c.2 = some (r, g2) ∧ (r = 0 ∨ r = k.SUCCESS) ∧
        r ≠ k.FAILURE := by
  obtain ⟨placed, hpl, _⟩ := GridPlantBomb_spec k g g1 bombCount c rand hplant
  have hc : (g1.cells c.1 c.2).bPlanted = false :=
    hpl.avoided ((hr.inv.unplanted rfl).1 c.1 c.2).2.1
  obtain ⟨r, g2, hcall, _, hcode⟩ := CellReveal_unmined k g1 c.1 c.2 (fun _ => hc)
  refine ⟨hc, r, g2, hcall, hcode, ?_⟩
  rcases hcode with h0 | h0
  · rw [h0]
    exact fun e => hF0 e.symm
  · rw [h0]
    exact fun e => hFS e.symm

/-! ## The cascade -/

theorem Adjacent.offset {i j i2 j2 : Int} (h : Adjacent i j i2 j2) :
    ∃ d ∈ offsets, ¬ (d.1 = 0 ∧ d.2 = 0) ∧ i2 = i + d.1 ∧ j2 = j + d.2 := by
  obtain ⟨h1, h2, h3, h4, h5⟩ := h
  refine ⟨(i2 - i, j2 - j), ?_, ?_, by simp, by simp⟩
  · have ha : i2 - i = -1 ∨ i2 - i = 0 ∨ i2 - i = 1 := by omega
    have hb : j2 - j = -1 ∨ j2 - j = 0 ∨ j2 - j = 1 := by omega
    rcases ha with ha | ha | ha <;> rcases hb with hb | hb | hb <;> rw [ha, hb] <;>
      simp [offsets]
  · intro hc
    apply h5
    simp only at hc
    omega

theorem mineNeighbors_zero (k : Consts) (g : Grid) (i j : Int)
    (h : mineNeighbors k g i j = 0) (d : Int × Int) (hd : d ∈ offsets)
    (hd0 : ¬ (d.1 = 0 ∧ d.2 = 0)) (hb : InBounds k (i + d.1) (j + d.2) = true) :
    (g.cells (i + d.1) (j + d.2)).bPlanted = false := by
  unfold mineNeighbors at h
  rw [List.countP_eq_zero] at h
  have := h d hd
  by_contra hc
  apply this
  have hp : (g.cells (i + d.1) (j + d.2)).bPlanted = true := by simpa using hc
  have h0 : (decide (d.1 = 0) && decide (d.2 = 0)) = false := by
    simpa using hd0
  simp [hb, hp, h0]

theorem Post.neighbor_discovered {k : Consts} {g g2 : Grid} {x y : Int}
    (hpost : Post k g x y g2) (hacc : CountsAccurate k g) (i j i2 j2 : Int)
    (hij : InBounds k i j = true) (hz : (g.cells i j).explosiveNeighbor = 0)
    (hd : (g.cells i j).bDiscovered = false) (hd2 : (g2.cells i j).bDiscovered = true)
    (hadj : Adjacent i j i2 j2) (hb : InBounds k i2 j2 = true)
    (hf : (g.cells i2 j2).bFlagged = false) : (g2.cells i2 j2).bDiscovered = true := by
  obtain ⟨d, hdm, hd0, rfl, rfl⟩ := hadj.offset
  have hm : mineNeighbors k g i j = 0 := by
    have := hacc i j hij
    rw [hz] at this
    exact_mod_cast this.symm
  exact hpost.closed i j hd hd2 (by rw [hz]; decide) d hdm hd0 hb hf
    (mineNeighbors_zero k g i j hm d hdm hd0 hb)

theorem eq_some_getD {α : Type} (o : Option α) (d : α) (h : o.isSome = true) :
    o = some (o.getD d) := by
  cases o with
  | none => exact absurd h (by simp)
  | some a => rfl

/-! ## The event loop only produces reachable boards -/

theorem handleEvent_reachable (k : Consts) (rand : List (Nat × Nat)) (s : GameState)
    (e : Event) (out : GameState × Option Int)
    (hs : Reachable k (!s.bFirstTouch) s.gameGrid) (h : handleEvent k rand s e = some out) :
    Reachable k (!out.1.bFirstTouch) out.1.gameGrid := by
  cases e with
  | closed =>
    simp only [handleEvent, Option.some.injEq] at h
    subst h
    exact hs
  | other =>
    simp only [handleEvent, Option.some.injEq] at h
    subst h
    exact hs
  | mouseMoved hovered =>
    simp only [handleEvent, Option.some.injEq] at h
    subst h
    exact hs
  | rightPressed =>
    simp only [handleEvent] at h
    split at h
    · simp only [Option.some.injEq] at h
      subst h
      exact Reachable.flag _ _ hs
    · simp only [Option.some.injEq] at h
      subst h
      exact hs
  | leftPressed =>
    simp only [handleEvent] at h
    split at h
    · split at h
      · exact absurd h (by simp)
      · next g1 hplant =>
        have hg1 : Reachable k true g1 := by
          cases hft : s.bFirstTouch
          · rw [hft] at hplant hs
            simp only [Bool.false_eq_true, if_false, Option.some.injEq] at hplant
            subst hplant
            exact hs
          · rw [hft] at hplant hs
            simp only [if_true] at hplant
            exact Reachable.plant _ _ hs hplant
        split at h
        · exact absurd h (by simp)
        · next res hcall =>
          simp only [Option.some.injEq] at h
          subst h
          exact Reachable.reveal _ _ hg1 hcall
    · simp only [Option.some.injEq] at h
      subst h
      exact hs

theorem runEvents_reachable (k : Consts) (rand : List (Nat × Nat)) :
    ∀ (es : List Event) (s : GameState) (out : GameState × Option Int),
      Reachable k (!s.bFirstTouch) s.gameGrid → runEvents k rand s es = some out →
      Reachable k (!out.1.bFirstTouch) out.1.gameGrid := by
  intro es
  induction es with
  | nil =>
    intro s out hs h
    simp only [runEvents, Option.some.injEq] at h
    subst h
    exact hs
  | cons e es ih =>
    intro s out hs h
    unfold runEvents at h
    split at h
    · exact absurd h (by simp)
    · next s2 code hstep =>
      simp only [Option.some.injEq] at h
      subst h
      exact handleEvent_reachable k rand s e _ hs hstep
    · next s2 hstep =>
      exact ih s2 out (handleEvent_reachable k rand s e _ hs hstep) h

theorem main_reachable (k : Consts) (rand : List (Nat × Nat)) (es : List Event)
    (out : GameState × Option Int) (h : runEvents k rand initialState es = some out) :
    Reachable k (!out.1.bFirstTouch) out.1.gameGrid :=
  runEvents_reachable k rand es initialState out Reachable.create h

/-! ## Facts about the concrete boards -/

theorem board3_planted :
    GridPlantBomb demo3 GridCreate 1 (0, 0) [(0, 0), (2, 2)] = some board3 :=
  eq_some_getD _ _ (by decide)

theorem board3_reachable : Reachable demo3 true board3 :=
  Reachable.plant (0, 0) [(0, 0), (2, 2)] Reachable.create board3_planted

theorem board3r_reachable : Reachable demo3 true board3r :=
  Reachable.reveal 1 1 board3_reachable (eq_some_getD _ (0, GridCreate) (by decide))

theorem boardC3_reachable : Reachable demo3 true boardC3 :=
  Reachable.flag 2 0 (Reachable.flag 0 0
    (Reachable.reveal 1 0
      (Reachable.plant (1, 0) [(2, 2)]
        (Reachable.flag 2 0 (Reachable.flag 0 1 (Reachable.flag 0 0 Reachable.create)))
        (eq_some_getD _ GridCreate (by decide)))
      (eq_some_getD _ (0, GridCreate) (by decide))))

set_option maxHeartbeats 4000000 in
theorem boardC3_from_main :
    (runEvents demo3 [(2, 2)] initialState eventsC3).map (fun out =>
        (out.2, (coords demo3).map (fun c => out.1.gameGrid.cells c.1 c.2))) =
      some (none, (coords demo3).map (fun c => boardC3.cells c.1 c.2)) := by
  decide

/-! ## The region the cascade discovers -/

/-- C3, as stated, fails.  On the reachable 3×3 board `boardC3` (bomb at `(2, 2)`,
accurate counts; `(1, 0)`, `(1, 1)`, `(2, 1)` discovered by the first click; a flag on
`(0, 1)`), the cell `(0, 0)` is in bounds, undiscovered, unflagged, unmined and has
count zero.  The zero-count cells `(0, 1)`, `(0, 2)` and `(2, 0)` belong to its
zero-count region, but after `CellReveal` of `(0, 0)` none of them is discovered:
`(0, 1)` is flagged, `(0, 2)` is linked to `(0, 0)` through the flagged `(0, 1)` only,
and `(2, 0)` through the already discovered `(1, 0)` only. -/
theorem cascade_region_counterexample :
    Reachable demo3 true boardC3 ∧ CountsAccurate demo3 boardC3 ∧
      Safe demo3 boardC3 0 0 ∧ (boardC3.cells 0 0).explosiveNeighbor = 0 ∧
      ZeroRegion demo3 boardC3 0 0 0 1 ∧ ZeroRegion demo3 boardC3 0 0 0 2 ∧
      ZeroRegion demo3 boardC3 0 0 2 0 ∧
      (CellReveal demo3 boardC3 0 0).map (fun res =>
        ((res.2.cells 0 1).bDiscovered, (res.2.cells 0 2).bDiscovered,
          (res.2.cells 2 0).bDiscovered)) = some (false, false, false) := by
  have h01 : ZeroRegion demo3 boardC3 0 0 0 1 :=
    ZeroRegion.step ZeroRegion.start (by unfold Adjacent; decide) (by decide) (by decide)
  have h10 : ZeroRegion demo3 boardC3 0 0 1 0 :=
    ZeroRegion.step ZeroRegion.start (by unfold Adjacent; decide) (by decide) (by decide)
  refine ⟨boardC3_reachable, boardC3_reachable.inv.accurate,
    ⟨by decide, by decide, by decide, by decide⟩, by decide, h01, ?_, ?_, by decide⟩
  · exact ZeroRegion.step h01 (by unfold Adjacent; decide) (by decide) (by decide)
  · exact ZeroRegion.step h10 (by unfold Adjacent; decide) (by decide) (by decide)

/-- C3, amended: on a reachable board with accurate counts, after the reveal of an
in-bounds, undiscovered, unflagged, unmined cell `c` of count zero, every cell that a
chain of neighbouring zero-count cells, each undiscovered and unflagged before the
call, links to `c` is discovered, and so is every in-bounds unflagged 8-neighbour of
such a cell. -/
theorem reveal_cascade_open_region (k : Consts) (p : Bool) (g : Grid) (x y : Int)
    (_hr : Reachable k p g) (hacc : CountsAccurate k g) (hs : Safe k g x y)
    (h0 : (g.cells x y).explosiveNeighbor = 0) :
    ∃ r g2, CellReveal k g x y = some (r, g2) ∧
      ∀ i j, OpenRegion k g x y i j →
        (g2.cells i j).bDiscovered = true ∧
        ∀ i2 j2, Adjacent i j i2 j2 → InBounds k i2 j2 = true →
          (g.cells i2 j2).bFlagged = false → (g2.cells i2 j2).bDiscovered = true := by
  obtain ⟨g2, hcall, hpost⟩ := CellReveal_safe k g x y hs
  refine ⟨_, g2, hcall, ?_⟩
  have key : ∀ i j, OpenRegion k g x y i j →
      InBounds k i j = true ∧ (g.cells i j).explosiveNeighbor = 0 ∧
        (g.cells i j).bDiscovered = false ∧ (g2.cells i j).bDiscovered = true := by
    intro i j hreg
    induction hreg with
    | start => exact ⟨hs.1, h0, hs.2.1, hpost.target⟩
    | @step i j i2 j2 _ hadj hb hz hd hf ih =>
      exact ⟨hb, hz, hd, hpost.neighbor_discovered hacc i j i2 j2 ih.1 ih.2.1 ih.2.2.1
        ih.2.2.2 hadj hb hf⟩
  intro i j hreg
  obtain ⟨hb, hz, hd, hd2⟩ := key i j hreg
  exact ⟨hd2, fun i2 j2 hadj hb2 hf =>
    hpost.neighbor_discovered hacc i j i2 j2 hb hz hd hd2 hadj hb2 hf⟩

/-! ## Concrete instances on the 3×3 boards -/

theorem discoveredCellCount_invariant_witness :
    Reachable demo3 true board3r ∧
      board3r.discoveredCellCount = (safeDiscovered demo3 board3r : Int) :=
  ⟨board3r_reachable, discoveredCellCount_invariant demo3 true board3r board3r_reachable⟩

theorem reveal_win_iff_witness :
    Reachable demo3 true board3 ∧ (minedCount demo3 board3 : Int) = demo3.BOMB_COUNT ∧
      Safe demo3 board3 0 0 ∧ demo3.SUCCESS ≠ 0 ∧
      ∃ r g2, CellReveal demo3 board3 0 0 = some (r, g2) ∧
        (r = demo3.SUCCESS ↔
          g2.discoveredCellCount =
            (demo3.GRID_SIZE : Int) * (demo3.GRID_SIZE : Int) - demo3.BOMB_COUNT) ∧
        (r ≠ demo3.SUCCESS → r = 0) :=
  ⟨board3_reachable, by decide, ⟨by decide, by decide, by decide, by decide⟩, by decide,
    reveal_win_iff demo3 true board3 0 0 board3_reachable (by decide)
      ⟨by decide, by decide, by decide, by decide⟩ (by decide)⟩

theorem reveal_cascade_open_region_witness :
    Reachable demo3 true board3 ∧ CountsAccurate demo3 board3 ∧
      Safe demo3 board3 0 0 ∧ (board3.cells 0 0).explosiveNeighbor = 0 ∧
      ∃ r g2, CellReveal demo3 board3 0 0 = some (r, g2) ∧
        ∀ i j, OpenRegion demo3 board3 0 0 i j →
          (g2.cells i j).bDiscovered = true ∧
          ∀ i2 j2, Adjacent i j i2 j2 → InBounds demo3 i2 j2 = true →
            (board3.cells i2 j2).bFlagged = false → (g2.cells i2 j2).bDiscovered = true :=
  ⟨board3_reachable, board3_reachable.inv.accurate,
    ⟨by decide, by decide, by decide, by decide⟩, by decide,
    reveal_cascade_open_region demo3 true board3 0 0 board3_reachable
      board3_reachable.inv.accurate ⟨by decide, by decide, by decide, by decide⟩
      (by decide)⟩

theorem plant_exact_count_witness :
    (0 : Int) ≤ 1 ∧ (1 : Int) ≤ (demo3.GRID_SIZE : Int) * (demo3.GRID_SIZE : Int) - 1 ∧
      GridPlantBomb demo3 GridCreate 1 (0, 0) [(0, 0), (2, 2)] = some board3 ∧
      (minedCount demo3 board3 : Int) = 1 ∧ (board3.cells 0 0).bPlanted = false :=
  ⟨by decide, by decide, board3_planted,
    plant_exact_count demo3 1 (0, 0) [(0, 0), (2, 2)] board3 (by decide) (by decide)
      board3_planted⟩

theorem plant_counts_accurate_witness :
    GridPlantBomb demo3 GridCreate 1 (0, 0) [(0, 0), (2, 2)] = some board3 ∧
      InBounds demo3 1 1 = true ∧
      (board3.cells 1 1).explosiveNeighbor = (mineNeighbors demo3 board3 1 1 : Int) ∧
      0 ≤ (board3.cells 1 1).explosiveNeighbor ∧ (board3.cells 1 1).explosiveNeighbor ≤ 8 :=
  ⟨board3_planted, by decide,
    plant_counts_accurate demo3 1 (0, 0) [(0, 0), (2, 2)] board3 board3_planted 1 1
      (by decide)⟩

theorem first_click_safe_witness :
    Reachable demo3 false (CellFlag demo3 GridCreate 1 1) ∧
      GridPlantBomb demo3 (CellFlag demo3 GridCreate 1 1) 1 (0, 0) [(0, 0), (2, 2)] =
        some ((GridPlantBomb demo3 (CellFlag demo3 GridCreate 1 1) 1 (0, 0)
          [(0, 0), (2, 2)]).getD GridCreate) ∧
      demo3.FAILURE ≠ 0 ∧ demo3.FAILURE ≠ demo3.SUCCESS ∧
      (((GridPlantBomb demo3 (CellFlag demo3 GridCreate 1 1) 1 (0, 0)
          [(0, 0), (2, 2)]).getD GridCreate).cells 0 0).bPlanted = false ∧
      ∃ r g2, CellReveal demo3 ((GridPlantBomb demo3 (CellFlag demo3 GridCreate 1 1) 1 (0, 0)
          [(0, 0), (2, 2)]).getD GridCreate) 0 0 = some (r, g2) ∧
        (r = 0 ∨ r = demo3.SUCCESS) ∧ r ≠ demo3.FAILURE :=
  ⟨Reachable.flag 1 1 Reachable.create, eq_some_getD _ _ (by decide), by decide, by decide,
    first_click_safe demo3 (CellFlag demo3 GridCreate 1 1) _ (0, 0) 1 [(0, 0), (2, 2)]
      (Reachable.flag 1 1 Reachable.create) (eq_some_getD _ _ (by decide)) (by decide)
      (by decide)⟩

theorem reveal_mined_cell_witness :
    InBounds demo3 2 2 = true ∧ (board3.cells 2 2).bDiscovered = false ∧
      (board3.cells 2 2).bFlagged = false ∧ (board3.cells 2 2).bPlanted = true ∧
      ∃ g2, CellReveal demo3 board3 2 2 = some (demo3.FAILURE, g2) ∧
        g2.cells 2 2 = { board3.cells 2 2 with bDiscovered := true } ∧
        (g2.cells 2 2).bDiscovered = true ∧
        (∀ i j, ¬ (i = 2 ∧ j = 2) → g2.cells i j = board3.cells i j) ∧
        g2.discoveredCellCount = board3.discoveredCellCount :=
  ⟨by decide, by decide, by decide, by decide,
    reveal_mined_cell demo3 board3 2 2 (by decide) (by decide) (by decide) (by decide)⟩

theorem reveal_noop_witness :
    (InBounds demo3 1 1 = false ∨ (board3r.cells 1 1).bDiscovered = true ∨
        (board3r.cells 1 1).bFlagged = true) ∧
      CellReveal demo3 board3r 1 1 = some (0, board3r) :=
  ⟨Or.inr (Or.inl (by decide)), reveal_noop demo3 board3r 1 1 (Or.inr (Or.inl (by decide)))⟩

theorem reveal_keeps_mines_hidden_witness :
    (InBounds demo3 0 0 = true → (board3.cells 0 0).bPlanted = false) ∧
      ∃ r g2, CellReveal demo3 board3 0 0 = some (r, g2) ∧
        ∀ i j, (board3.cells i j).bPlanted = true →
          g2.cells i j = board3.cells i j ∧
          (g2.cells i j).bDiscovered = (board3.cells i j).bDiscovered :=
  ⟨fun _ => by decide, reveal_keeps_mines_hidden demo3 board3 0 0 (fun _ => by decide)⟩

theorem reveal_numbered_cell_witness :
    Safe demo3 board3 1 1 ∧ (board3.cells 1 1).explosiveNeighbor > 0 ∧
      board3.discoveredCellCount < INT_MAX ∧
      ∃ r g2, CellReveal demo3 board3 1 1 = some (r, g2) ∧
        g2.cells 1 1 = { board3.cells 1 1 with bDiscovered := true } ∧
        (g2.cells 1 1).bDiscovered = true ∧
        g2.discoveredCellCount = board3.discoveredCellCount + 1 ∧
        g2.discoveredCellCount ≤ INT_MAX ∧
        (∀ i j, ¬ (i = 1 ∧ j = 1) → g2.cells i j = board3.cells i j) ∧
        (board3.discoveredCellCount + 1 <
            (demo3.GRID_SIZE : Int) * (demo3.GRID_SIZE : Int) - demo3.BOMB_COUNT → r = 0) ∧
        ((demo3.GRID_SIZE : Int) * (demo3.GRID_SIZE : Int) - demo3.BOMB_COUNT ≤
            board3.discoveredCellCount + 1 → r = demo3.SUCCESS) :=
  ⟨⟨by decide, by decide, by decide, by decide⟩, by decide, by decide,
    reveal_numbered_cell demo3 board3 1 1 ⟨by decide, by decide, by decide, by decide⟩
      (by decide) (by decide)⟩

/-! ## `CellFlag` -/

theorem Grid.ext_cells (g g2 : Grid) (hc : ∀ i j, g2.cells i j = g.cells i j)
    (hn : g2.discoveredCellCount = g.discoveredCellCount) : g2 = g := by
  cases g
  cases g2
  simp only [Grid.mk.injEq]
  exact ⟨funext fun i => funext fun j => hc i j, hn⟩

theorem CellFlag_noop (k : Consts) (g : Grid) (x y : Int)
    (h : InBounds k x y = false ∨ (g.cells x y).bDiscovered = true) :
    CellFlag k g x y = g := by
  unfold CellFlag
  rcases h with h | h
  · simp [h]
  · by_cases hb : InBounds k x y = true
    · simp [hb, h]
    · simp [hb]

theorem CellFlag_flip (k : Consts) (g : Grid) (x y : Int) (hb : InBounds k x y = true)
    (hd : (g.cells x y).bDiscovered = false) :
    CellFlag k g x y =
      g.setCell x y { g.cells x y with bFlagged := !(g.cells x y).bFlagged } := by
  unfold CellFlag
  simp [hb, hd]

/-- C11: on every board, for an in-bounds undiscovered cell, `CellFlag` twice gives
back the board itself (the flag of the cell has its first value and nothing else
differs); and if the cell was unflagged, a `CellReveal` of it between the two calls
returns `0` and leaves the board as the first `CellFlag` made it. -/
theorem flag_twice_restores (k : Consts) (g : Grid) (x y : Int)
    (hb : InBounds k x y = true) (hd : (g.cells x y).bDiscovered = false) :
    CellFlag k (CellFlag k g x y) x y = g ∧
      ((CellFlag k (CellFlag k g x y) x y).cells x y).bFlagged = (g.cells x y).bFlagged ∧
      ((g.cells x y).bFlagged = false →
        CellReveal k (CellFlag k g x y) x y = some (0, CellFlag k g x y)) := by
  have h1 := CellFlag_flip k g x y hb hd
  have hd1 : ((CellFlag k g x y).cells x y).bDiscovered = false := by
    rw [CellFlag_disc]
    exact hd
  have h2 := CellFlag_flip k (CellFlag k g x y) x y hb hd1
  have hback : CellFlag k (CellFlag k g x y) x y = g := by
    apply Grid.ext_cells
    · intro i j
      rw [h2, setCell_cells]
      by_cases hij : i = x ∧ j = y
      · obtain ⟨rfl, rfl⟩ := hij
        rw [if_pos ⟨rfl, rfl⟩, h1]
        simp [setCell_cells]
      · rw [if_neg hij, h1, setCell_cells, if_neg hij]
    · rw [CellFlag_count, CellFlag_count]
  refine ⟨hback, by rw [hback], fun hf => ?_⟩
  apply CellReveal_noop
  right
  right
  rw [h1]
  simp [setCell_cells, hf]

/-- C12: `CellFlag` leaves the board as it is when the coordinate is out of bounds or
the cell is discovered; otherwise it flips `bFlagged` of that cell and changes nothing
else: no other member of the cell, no other cell, and not `discoveredCellCount`. -/
theorem flag_frame (k : Consts) (g : Grid) (x y : Int) :
    (InBounds k x y = false ∨ (g.cells x y).bDiscovered = true → CellFlag k g x y = g) ∧
      (InBounds k x y = true → (g.cells x y).bDiscovered = false →
        (CellFlag k g x y).cells x y =
            { g.cells x y with bFlagged := !(g.cells x y).bFlagged } ∧
          (∀ i j, ¬ (i = x ∧ j = y) → (CellFlag k g x y).cells i j = g.cells i j) ∧
          (CellFlag k g x y).discoveredCellCount = g.discoveredCellCount) := by
  refine ⟨CellFlag_noop k g x y, fun hb hd => ?_⟩
  rw [CellFlag_flip k g x y hb hd]
  refine ⟨by simp [setCell_cells], fun i j hij => ?_, rfl⟩
  rw [setCell_cells, if_neg hij]

/-- C17: on every board and for every coordinate, `CellReveal` returns and neither it
nor `CellFlag` changes `bPlanted` or `explosiveNeighbor` of any cell. -/
theorem mines_and_counts_fixed (k : Consts) (g : Grid) (x y : Int) :
    (∃ res, CellReveal k g x y = some res ∧
      ∀ i j, (res.2.cells i j).bPlanted = (g.cells i j).bPlanted ∧
        (res.2.cells i j).explosiveNeighbor = (g.cells i j).explosiveNeighbor) ∧
      ∀ i j, ((CellFlag k g x y).cells i j).bPlanted = (g.cells i j).bPlanted ∧
        ((CellFlag k g x y).cells i j).explosiveNeighbor =
          (g.cells i j).explosiveNeighbor := by
  constructor
  · obtain ⟨res, h⟩ := CellReveal_total k g x y
    have hf := CellReveal_frame k g x y res h
    exact ⟨res, h, fun i j => ⟨hf.planted i j, hf.neighbor i j⟩⟩
  · exact fun i j => ⟨CellFlag_planted k g x y i j, CellFlag_neighbor k g x y i j⟩

/-- C20: `CellReveal` returns `FAILURE` if and only if the coordinate is in bounds and
its cell is undiscovered, unflagged and mined; in every other case it returns `0` or
`SUCCESS` (`FAILURE` being a code other than `0` and `SUCCESS`). -/
theorem reveal_failure_iff (k : Consts) (g : Grid) (x y : Int) (hF0 : k.FAILURE ≠ 0)
    (hFS : k.FAILURE ≠ k.SUCCESS) :
    ∃ res, CellReveal k g x y = some res ∧
      (res.1 = k.FAILURE ↔
        (InBounds k x y = true ∧ (g.cells x y).bDiscovered = false ∧
          (g.cells x y).bFlagged = false ∧ (g.cells x y).bPlanted = true)) ∧
      (res.1 ≠ k.FAILURE → res.1 = 0 ∨ res.1 = k.SUCCESS) := by
  have hcode : ∀ r : Int, r = 0 ∨ r = k.SUCCESS → r ≠ k.FAILURE := by
    rintro r (h | h) e
    · exact hF0 (e.symm.trans h)
    · exact hFS (e.symm.trans h)
  rcases CellReveal_cases k g x y with h0 | ⟨hb, hd, hf, hp, h1⟩ | ⟨hs, g2, h2, _⟩
  · refine ⟨_, h0, ⟨fun e => absurd e.symm hF0, ?_⟩, fun _ => Or.inl rfl⟩
    rintro ⟨hb, hd, hf, hp⟩
    have hm := CellReveal_mine k g x y hb hd hf hp
    rw [h0] at hm
    simp only [Option.some.injEq, Prod.mk.injEq] at hm
    exact absurd hm.1.symm hF0
  · exact ⟨_, h1, ⟨fun _ => ⟨hb, hd, hf, hp⟩, fun _ => rfl⟩, fun hne => absurd rfl hne⟩
  · refine ⟨_, h2, ⟨fun e => absurd e (hcode _ (winCode_cases k g2)), ?_⟩,
      fun _ => winCode_cases k g2⟩
    rintro ⟨_, _, _, hp⟩
    rw [hs.2.2.2] at hp
    exact absurd hp (by simp)

/-- C18: on every board, after the reveal of a cell that is not mined, every cell of
count zero that the call discovered has all its in-bounds 8-neighbours that are
neither flagged nor mined discovered. -/
theorem cascade_locally_closed (k : Consts) (g : Grid) (x y : Int)
    (hp : InBounds k x y = true → (g.cells x y).bPlanted = false) :
    ∃ r g2, CellReveal k g x y = some (r, g2) ∧
      ∀ i j, (g.cells i j).bDiscovered = false → (g2.cells i j).bDiscovered = true →
        (g.cells i j).explosiveNeighbor = 0 →
        ∀ i2 j2, Adjacent i j i2 j2 → InBounds k i2 j2 = true →
          (g.cells i2 j2).bFlagged = false → (g.cells i2 j2).bPlanted = false →
          (g2.cells i2 j2).bDiscovered = true := by
  rcases CellReveal_cases k g x y with h0 | ⟨hb, _, _, hm, _⟩ | ⟨_, g2, h2, hpost⟩
  · refine ⟨0, g, h0, fun i j hd hd2 => ?_⟩
    rw [hd] at hd2
    exact absurd hd2 (by simp)
  · rw [hp hb] at hm
    exact absurd hm (by simp)
  · refine ⟨_, g2, h2, fun i j hd hd2 hz i2 j2 hadj hb2 hf hpl => ?_⟩
    obtain ⟨d, hdm, hd0, rfl, rfl⟩ := hadj.offset
    exact hpost.closed i j hd hd2 (by rw [hz]; decide) d hdm hd0 hb2 hf hpl

/-! ## Flags and discovered cells -/

theorem CellReveal_flagged_same (k : Consts) (g : Grid) (x y : Int) (res : Int × Grid)
    (h : CellReveal k g x y = some res) (i j : Int)
    (hf : (g.cells i j).bFlagged = true) : res.2.cells i j = g.cells i j := by
  rcases CellReveal_cases k g x y with h0 | ⟨_, _, hfx, _, h1⟩ | ⟨_, g2, h2, hpost⟩
  · rw [h0] at h
    cases h
    rfl
  · rw [h1] at h
    cases h
    rw [setCell_cells]
    by_cases hij : i = x ∧ j = y
    · obtain ⟨rfl, rfl⟩ := hij
      rw [hfx] at hf
      exact absurd hf (by simp)
    · rw [if_neg hij]
  · rw [h2] at h
    cases h
    rcases hpost.ext.cell i j with e | ⟨_, hg, _⟩
    · exact e
    · rw [revealGuard_iff] at hg
      rw [hg.2.1] at hf
      exact absurd hf (by simp)

theorem Reachable.flag_not_disc {k : Consts} {p : Bool} {g : Grid} (h : Reachable k p g) :
    ∀ i j, ¬ ((g.cells i j).bFlagged = true ∧ (g.cells i j).bDiscovered = true) := by
  induction h with
  | create =>
    intro i j hc
    exact absurd hc.1 (by simp [GridCreate, CellCreate])
  | @flag p g x y _ ih =>
    intro i j hc
    rcases CellFlag_cells k g x y i j with e | ⟨_, hd, e⟩
    · rw [e] at hc
      exact ih i j hc
    · rw [e] at hc
      simp only at hc
      rw [hd] at hc
      exact absurd hc.2 (by simp)
  | @plant g g2 avoid rand _ hrun ih =>
    intro i j hc
    obtain ⟨placed, hpl, _⟩ := GridPlantBomb_spec k g g2 _ avoid rand hrun
    rw [hpl.flag, hpl.disc] at hc
    exact ih i j hc
  | @reveal g x y res _ hrun ih =>
    intro i j hc
    have hfl := (CellReveal_frame k g x y res hrun).flagged i j
    rw [hfl] at hc
    have hsame := CellReveal_flagged_same k g x y res hrun i j hc.1
    rw [hsame] at hc
    exact ih i j hc

/-- C13: on every board the operations of the game produce from `GridCreate`, no cell
is both flagged and discovered; and a call of `CellReveal` on such a board returns
and leaves every flagged cell exactly as it was, so no flagged cell becomes
discovered. -/
theorem flagged_never_discovered (k : Consts) (p : Bool) (g : Grid)
    (h : Reachable k p g) :
    (∀ i j, ¬ ((g.cells i j).bFlagged = true ∧ (g.cells i j).bDiscovered = true)) ∧
      ∀ x y, ∃ res, CellReveal k g x y = some res ∧
        ∀ i j, (g.cells i j).bFlagged = true →
          res.2.cells i j = g.cells i j ∧ (res.2.cells i j).bDiscovered = false := by
  refine ⟨h.flag_not_disc, fun x y => ?_⟩
  obtain ⟨res, hres⟩ := CellReveal_total k g x y
  refine ⟨res, hres, fun i j hf => ?_⟩
  have hsame := CellReveal_flagged_same k g x y res hres i j hf
  refine ⟨hsame, ?_⟩
  rw [hsame]
  by_contra hc
  exact h.flag_not_disc i j ⟨hf, by simpa using hc⟩

/-! ## Termination of the flood fill -/

theorem revealNeighbors_mono (k : Consts)
    (call1 call2 : Grid → Int → Int → Option (Int × Grid)) (gx gy : Int)
    (h : ∀ g x y res, call1 g x y = some res → call2 g x y = some res) :
    ∀ (l : List (Int × Int)) (g g2 : Grid),
      revealNeighbors k call1 gx gy l g = some g2 →
      revealNeighbors k call2 gx gy l g = some g2 := by
  intro l
  induction l with
  | nil =>
    intro g g2 hrun
    unfold revealNeighbors at hrun ⊢
    exact hrun
  | cons d rest ih =>
    intro g g2 hrun
    unfold revealNeighbors at hrun ⊢
    by_cases h0 : d.1 = 0 ∧ d.2 = 0
    · rw [if_pos h0] at hrun ⊢
      exact ih g g2 hrun
    · rw [if_neg h0] at hrun ⊢
      by_cases hb : InBounds k (gx + d.1) (gy + d.2) = true
      · rw [if_pos hb] at hrun ⊢
        by_cases hg : revealGuard (g.cells (gx + d.1) (gy + d.2)) = true
        · rw [if_pos hg] at hrun ⊢
          cases hc : call1 g (gx + d.1) (gy + d.2) with
          | none =>
            rw [hc] at hrun
            exact absurd hrun (by simp)
          | some res =>
            rw [hc] at hrun
            rw [h _ _ _ _ hc]
            exact ih res.2 g2 hrun
        · rw [if_neg hg] at hrun ⊢
          exact ih g g2 hrun
      · rw [if_neg hb] at hrun ⊢
        exact ih g g2 hrun

theorem CellRevealFuel_unfold_early (k : Consts) (fuel : Nat) (g : Grid) (x y : Int)
    (h : ¬ Safe k g x y) :
    CellRevealFuel k (fuel + 1) g x y =
      if InBounds k x y = false ∨ (g.cells x y).bDiscovered = true ∨
          (g.cells x y).bFlagged = true then some (0, g)
      else some (k.FAILURE, g.setCell x y { g.cells x y with bDiscovered := true }) := by
  simp only [CellRevealFuel]
  cases hb : InBounds k x y
  · simp
  · cases hd : (g.cells x y).bDiscovered
    · cases hf : (g.cells x y).bFlagged
      · cases hp : (g.cells x y).bPlanted
        · exact absurd ⟨hb, hd, hf, hp⟩ h
        · simp
      · simp
    · simp

theorem CellRevealFuel_succ (k : Consts) :
    ∀ (fuel : Nat) (g : Grid) (x y : Int) (res : Int × Grid),
      CellRevealFuel k fuel g x y = some res →
      CellRevealFuel k (fuel + 1) g x y = some res := by
  intro fuel
  induction fuel with
  | zero =>
    intro g x y res h
    simp [CellRevealFuel] at h
  | succ n ih =>
    intro g x y res h
    by_cases hs : Safe k g x y
    · rw [CellRevealFuel_unfold_safe k n g x y hs] at h
      rw [CellRevealFuel_unfold_safe k (n + 1) g x y hs]
      by_cases hn : (g.cells x y).explosiveNeighbor > 0
      · rw [if_pos hn] at h ⊢
        exact h
      · rw [if_neg hn] at h ⊢
        cases hr : revealNeighbors k (CellRevealFuel k n) x y offsets (markDiscovered g x y) with
        | none =>
          rw [hr] at h
          exact absurd h (by simp)
        | some g2 =>
          rw [hr] at h
          rw [revealNeighbors_mono k _ _ x y ih offsets _ g2 hr]
          exact h
    · rw [CellRevealFuel_unfold_early k n g x y hs] at h
      rw [CellRevealFuel_unfold_early k (n + 1) g x y hs]
      exact h

theorem CellRevealFuel_le (k : Consts) (g : Grid) (x y : Int) (res : Int × Grid)
    (fuel fuel2 : Nat) (hle : fuel ≤ fuel2) (h : CellRevealFuel k fuel g x y = some res) :
    CellRevealFuel k fuel2 g x y = some res := by
  induction hle with
  | refl => exact h
  | step _ ih => exact CellRevealFuel_succ k _ g x y res ih

theorem CellRevealFuel_total (k : Consts) (fuel : Nat) (g : Grid) (x y : Int)
    (hfuel : undiscovered k g < fuel) : ∃ res, CellRevealFuel k fuel g x y = some res := by
  by_cases hs : Safe k g x y
  · obtain ⟨g2, h, _⟩ := CellRevealFuel_safe k fuel g x y hfuel hs
    exact ⟨_, h⟩
  · obtain ⟨n, rfl⟩ : ∃ n, fuel = n + 1 := ⟨fuel - 1, by omega⟩
    rw [CellRevealFuel_unfold_early k n g x y hs]
    split
    · exact ⟨_, rfl⟩
    · exact ⟨_, rfl⟩

theorem CellRevealFuel_enough (k : Consts) (fuel : Nat) (g : Grid) (x y : Int)
    (hfuel : undiscovered k g < fuel) : CellRevealFuel k fuel g x y = CellReveal k g x y := by
  obtain ⟨res, h⟩ := CellRevealFuel_total k fuel g x y hfuel
  obtain ⟨res2, h2⟩ := CellReveal_total k g x y
  have e1 := CellRevealFuel_le k g x y res fuel (max fuel (k.GRID_SIZE * k.GRID_SIZE + 1))
    (le_max_left _ _) h
  have e2 := CellRevealFuel_le k g x y res2 (k.GRID_SIZE * k.GRID_SIZE + 1)
    (max fuel (k.GRID_SIZE * k.GRID_SIZE + 1)) (le_max_right _ _) h2
  rw [e1] at e2
  rw [h, h2]
  exact e2

theorem countCells_lt (k : Consts) (p : Cell → Bool) (g g2 : Grid) (x y : Int)
    (hxy : InBounds k x y = true) (hp : p (g.cells x y) = true)
    (hq : p (g2.cells x y) = false)
    (h : ∀ i j, InBounds k i j = true → p (g2.cells i j) = true → p (g.cells i j) = true) :
    countCells k p g2 < countCells k p g := by
  have h1 : countCells k p (g2.setCell x y (g.cells x y)) = countCells k p g2 + 1 := by
    apply countCells_flip k p g2 _ x y hxy hq
    · simp [setCell_cells, hp]
    · intro i j hij
      rw [setCell_cells, if_neg hij]
  have h2 : countCells k p (g2.setCell x y (g.cells x y)) ≤ countCells k p g := by
    apply countCells_mono
    intro i j hij hpi
    rw [setCell_cells] at hpi
    by_cases hc : i = x ∧ j = y
    · obtain ⟨rfl, rfl⟩ := hc
      exact hp
    · rw [if_neg hc] at hpi
      exact h i j hij hpi
  omega

theorem CellReveal_target (k : Consts) (g : Grid) (x y : Int) (res : Int × Grid)
    (h : CellReveal k g x y = some res) (hb : InBounds k x y = true)
    (hd : (g.cells x y).bDiscovered = false) (hf : (g.cells x y).bFlagged = false) :
    (res.2.cells x y).bDiscovered = true := by
  rcases CellReveal_cases k g x y with h0 | ⟨_, _, _, _, h1⟩ | ⟨_, g2, h2, hpost⟩
  · by_cases hp : (g.cells x y).bPlanted = true
    · have hm := CellReveal_mine k g x y hb hd hf hp
      rw [hm] at h
      cases h
      simp [setCell_cells]
    · have hs : Safe k g x y := ⟨hb, hd, hf, by simpa using hp⟩
      obtain ⟨g2, h2, hpost⟩ := CellReveal_safe k g x y hs
      rw [h2] at h
      cases h
      exact hpost.target
  · rw [h1] at h
    cases h
    simp [setCell_cells]
  · rw [h2] at h
    cases h
    exact hpost.target

theorem safe_add_hidden (k : Consts) (g : Grid) :
    countCells k (fun c => !c.bPlanted) g = safeDiscovered k g + hiddenSafe k g := by
  unfold safeDiscovered hiddenSafe countCells
  apply countP_add
  intro c _
  cases hd : (g.cells (c.1 : Int) (c.2 : Int)).bDiscovered <;>
    cases hp : (g.cells (c.1 : Int) (c.2 : Int)).bPlanted <;> simp [hd, hp]

/-- C16: on every board and for every coordinate the recursion of `CellReveal` ends:
the call returns, and it does so with any bound on the recursion depth above the
number of undiscovered cells.  A call that gets past the early returns leaves
strictly fewer undiscovered cells, and no call leaves more.  When the counter is far
enough below `INT_MAX` for its increments not to overflow (by the number of cells that
are neither discovered nor mined), it stays within `INT_MAX` and grows by the number
of cells that became discovered and are not mined (a cell is counted once), which is at
most the number of cells that were undiscovered and not mined. -/
theorem reveal_terminates (k : Consts) (g : Grid) (x y : Int) :
    ∃ res, CellReveal k g x y = some res ∧
      (∀ fuel, undiscovered k g < fuel → CellRevealFuel k fuel g x y = some res) ∧
      (InBounds k x y = true → (g.cells x y).bDiscovered = false →
        (g.cells x y).bFlagged = false → undiscovered k res.2 < undiscovered k g) ∧
      undiscovered k res.2 ≤ undiscovered k g ∧
      (g.discoveredCellCount + (hiddenSafe k g : Int) ≤ INT_MAX →
        res.2.discoveredCellCount ≤ INT_MAX ∧
        res.2.discoveredCellCount - g.discoveredCellCount =
          (safeDiscovered k res.2 : Int) - (safeDiscovered k g : Int) ∧
        g.discoveredCellCount ≤ res.2.discoveredCellCount ∧
        res.2.discoveredCellCount - g.discoveredCellCount ≤ (hiddenSafe k g : Int)) := by
  obtain ⟨res, hres⟩ := CellReveal_total k g x y
  have hf := CellReveal_frame k g x y res hres
  have hmono : safeDiscovered k g ≤ safeDiscovered k res.2 := by
    apply countCells_mono
    intro i j _ hc
    simp only [Bool.and_eq_true, Bool.not_eq_true'] at hc ⊢
    exact ⟨hf.disc_mono i j hc.1, by rw [hf.planted]; exact hc.2⟩
  have hupper : safeDiscovered k res.2 ≤ safeDiscovered k g + hiddenSafe k g := by
    rw [← safe_add_hidden]
    apply countCells_mono
    intro i j _ hc
    simp only [Bool.and_eq_true, Bool.not_eq_true'] at hc
    simp only [Bool.not_eq_true']
    rw [← hf.planted]
    exact hc.2
  have hcount := hf.count
  refine ⟨res, hres, fun fuel hfuel => ?_, fun hb hd hfl => ?_, ?_,
    fun hmax => ⟨by omega, by omega, by omega, by omega⟩⟩
  · rw [CellRevealFuel_enough k fuel g x y hfuel]
    exact hres
  · apply countCells_lt k _ g res.2 x y hb
    · simp [hd]
    · simp [CellReveal_target k g x y res hres hb hd hfl]
    · intro i j _ hc
      by_contra hcon
      have := hf.disc_mono i j (by simpa using hcon)
      simp [this] at hc
  · apply countCells_mono
    intro i j _ hc
    by_contra hcon
    have := hf.disc_mono i j (by simpa using hcon)
    simp [this] at hc

/-! ## Planting happens once -/

theorem handleEvent_frozen (k : Consts) (rand : List (Nat × Nat)) (s : GameState)
    (e : Event) (out : GameState × Option Int) (hs : s.bFirstTouch = false)
    (h : handleEvent k rand s e = some out) :
    out.1.bFirstTouch = false ∧
      ∀ i j, (out.1.gameGrid.cells i j).bPlanted = (s.gameGrid.cells i j).bPlanted ∧
        (out.1.gameGrid.cells i j).explosiveNeighbor =
          (s.gameGrid.cells i j).explosiveNeighbor := by
  cases e with
  | closed =>
    simp only [handleEvent, Option.some.injEq] at h
    subst h
    exact ⟨hs, fun _ _ => ⟨rfl, rfl⟩⟩
  | other =>
    simp only [handleEvent, Option.some.injEq] at h
    subst h
    exact ⟨hs, fun _ _ => ⟨rfl, rfl⟩⟩
  | mouseMoved hovered =>
    simp only [handleEvent, Option.some.injEq] at h
    subst h
    exact ⟨hs, fun _ _ => ⟨rfl, rfl⟩⟩
  | rightPressed =>
    simp only [handleEvent] at h
    split at h
    · simp only [Option.some.injEq] at h
      subst h
      exact ⟨hs, fun i j => ⟨CellFlag_planted k _ _ _ i j, CellFlag_neighbor k _ _ _ i j⟩⟩
    · simp only [Option.some.injEq] at h
      subst h
      exact ⟨hs, fun _ _ => ⟨rfl, rfl⟩⟩
  | leftPressed =>
    simp only [handleEvent, hs, Bool.false_eq_true, if_false] at h
    split at h
    · split at h
      · exact absurd h (by simp)
      · next res hcall =>
        simp only [Option.some.injEq] at h
        subst h
        have hf := CellReveal_frame k _ _ _ res hcall
        exact ⟨rfl, fun i j => ⟨hf.planted i j, hf.neighbor i j⟩⟩
    · simp only [Option.some.injEq] at h
      subst h
      exact ⟨hs, fun _ _ => ⟨rfl, rfl⟩⟩

theorem runEvents_frozen (k : Consts) (rand : List (Nat × Nat)) :
    ∀ (es : List Event) (s : GameState) (out : GameState × Option Int),
      s.bFirstTouch = false → runEvents k rand s es = some out →
      out.1.bFirstTouch = false ∧
        ∀ i j, (out.1.gameGrid.cells i j).bPlanted = (s.gameGrid.cells i j).bPlanted ∧
          (out.1.gameGrid.cells i j).explosiveNeighbor =
            (s.gameGrid.cells i j).explosiveNeighbor := by
  intro es
  induction es with
  | nil =>
    intro s out hs h
    simp only [runEvents, Option.some.injEq] at h
    subst h
    exact ⟨hs, fun _ _ => ⟨rfl, rfl⟩⟩
  | cons e es ih =>
    intro s out hs h
    unfold runEvents at h
    split at h
    · exact absurd h (by simp)
    · next s2 code hstep =>
      simp only [Option.some.injEq] at h
      subst h
      exact handleEvent_frozen k rand s e _ hs hstep
    · next s2 hstep =>
      have h1 := handleEvent_frozen k rand s e _ hs hstep
      have h2 := ih s2 out h1.1 h
      refine ⟨h2.1, fun i j => ?_⟩
      rw [(h2.2 i j).1, (h2.2 i j).2]
      exact h1.2 i j

/-- C14, as stated, fails: `GridPlantBomb` has no guard.  The board `board3` has its
bomb planted (one mined cell, at `(2, 2)`; `(1, 1)` is not mined and `(0, 0)` has
count 0).  A second call with the draw `(1, 1)` returns and has planted a second
bomb, at `(1, 1)`, and raised the count of `(0, 0)` to 1. -/
theorem plant_twice_counterexample :
    GridPlantBomb demo3 GridCreate 1 (0, 0) [(0, 0), (2, 2)] = some board3 ∧
      minedCount demo3 board3 = 1 ∧ (board3.cells 1 1).bPlanted = false ∧
      (board3.cells 0 0).explosiveNeighbor = 0 ∧
      (GridPlantBomb demo3 board3 1 (0, 0) [(1, 1)]).map (fun g =>
        (minedCount demo3 g, (g.cells 1 1).bPlanted, (g.cells 0 0).explosiveNeighbor)) =
          some (2, true, 1) :=
  ⟨board3_planted, by decide, by decide, by decide, by decide⟩

/-- C14, amended: the guard is `bFirstTouch` in `main`, not in `GridPlantBomb`.  In
every state the event loop of `main` reaches: while `bFirstTouch` is set no cell is
mined and every count is 0; and once `bFirstTouch` is cleared (by the left click that
planted the bombs) it stays cleared and no later sequence of events makes any
additional cell mined or changes any count. -/
theorem plant_once_in_main (k : Consts) (rand : List (Nat × Nat)) (es1 : List Event)
    (out1 : GameState × Option Int)
    (h1 : runEvents k rand initialState es1 = some out1) :
    (out1.1.bFirstTouch = true →
      ∀ i j, (out1.1.gameGrid.cells i j).bPlanted = false ∧
        (out1.1.gameGrid.cells i j).explosiveNeighbor = 0) ∧
      (out1.1.bFirstTouch = false →
        ∀ (es2 : List Event) (out2 : GameState × Option Int),
          runEvents k rand out1.1 es2 = some out2 →
          out2.1.bFirstTouch = false ∧
            ∀ i j, (out2.1.gameGrid.cells i j).bPlanted =
                (out1.1.gameGrid.cells i j).bPlanted ∧
              (out2.1.gameGrid.cells i j).explosiveNeighbor =
                (out1.1.gameGrid.cells i j).explosiveNeighbor) := by
  constructor
  · intro hft i j
    have hr := main_reachable k rand es1 out1 h1
    rw [hft] at hr
    have hu := hr.inv.unplanted rfl
    exact ⟨(hu.1 i j).2.1, (hu.1 i j).2.2⟩
  · intro hft es2 out2 h2
    exact runEvents_frozen k rand es2 out1.1 out2 hft h2

theorem plant_once_in_main_witness :
    runEvents demo3 [(2, 2)] initialState eventsFirst = some outFirst ∧
      (outFirst.1.bFirstTouch = true →
        ∀ i j, (outFirst.1.gameGrid.cells i j).bPlanted = false ∧
          (outFirst.1.gameGrid.cells i j).explosiveNeighbor = 0) ∧
      (outFirst.1.bFirstTouch = false →
        ∀ (es2 : List Event) (out2 : GameState × Option Int),
          runEvents demo3 [(2, 2)] outFirst.1 es2 = some out2 →
          out2.1.bFirstTouch = false ∧
            ∀ i j, (out2.1.gameGrid.cells i j).bPlanted =
                (outFirst.1.gameGrid.cells i j).bPlanted ∧
              (out2.1.gameGrid.cells i j).explosiveNeighbor =
                (outFirst.1.gameGrid.cells i j).explosiveNeighbor) :=
  ⟨eq_some_getD _ _ (by decide),
    plant_once_in_main demo3 [(2, 2)] eventsFirst outFirst (eq_some_getD _ _ (by decide))⟩

/-! ## The 3×3 example -/

theorem offsets_bound (d : Int × Int) (h : d ∈ offsets) :
    -1 ≤ d.1 ∧ d.1 ≤ 1 ∧ -1 ≤ d.2 ∧ d.2 ≤ 1 := by
  simp only [offsets, List.mem_cons, List.mem_singleton, List.not_mem_nil, or_false] at h
  rcases h with rfl | rfl | rfl | rfl | rfl | rfl | rfl | rfl | rfl <;> simp

theorem Adjacent.of_offset (i j : Int) (d : Int × Int) (h : d ∈ offsets)
    (h0 : ¬ (d.1 = 0 ∧ d.2 = 0)) : Adjacent i j (i + d.1) (j + d.2) := by
  have hb := offsets_bound d h
  unfold Adjacent
  refine ⟨by omega, by omega, by omega, by omega, ?_⟩
  intro hc
  apply h0
  omega

theorem Post.open_region {k : Consts} {g g2 : Grid} {x y : Int} (hpost : Post k g x y g2)
    (hacc : CountsAccurate k g) (hs : Safe k g x y)
    (h0 : (g.cells x y).explosiveNeighbor = 0) (i j : Int)
    (hreg : OpenRegion k g x y i j) :
    InBounds k i j = true ∧ (g.cells i j).explosiveNeighbor = 0 ∧
      (g.cells i j).bDiscovered = false ∧ (g2.cells i j).bDiscovered = true := by
  induction hreg with
  | start => exact ⟨hs.1, h0, hs.2.1, hpost.target⟩
  | @step i j i2 j2 _ hadj hb hz hd hf ih =>
    exact ⟨hb, hz, hd, hpost.neighbor_discovered hacc i j i2 j2 ih.1 ih.2.1 ih.2.2.1
      ih.2.2.2 hadj hb hf⟩

/-- C15: on a 3×3 board with `BOMB_COUNT = 1`, the single bomb at `(2, 2)`, accurate
counts, nothing discovered or flagged (and so a counter of 0), `CellReveal` of
`(0, 0)` discovers the 8 cells other than `(2, 2)`, leaves `(2, 2)` undiscovered, sets
`discoveredCellCount` to 8 and returns `SUCCESS`. -/
theorem example_3x3_win (k : Consts) (g : Grid) (h3 : k.GRID_SIZE = 3)
    (hB : k.BOMB_COUNT = 1)
    (hmine : ∀ i j, InBounds k i j = true →
      ((g.cells i j).bPlanted = true ↔ (i = 2 ∧ j = 2)))
    (hacc : CountsAccurate k g)
    (hfresh : ∀ i j, InBounds k i j = true →
      (g.cells i j).bDiscovered = false ∧ (g.cells i j).bFlagged = false)
    (hcount : g.discoveredCellCount = 0) :
    ∃ g2, CellReveal k g 0 0 = some (k.SUCCESS, g2) ∧
      (∀ i j, InBounds k i j = true → ¬ (i = 2 ∧ j = 2) →
        (g2.cells i j).bDiscovered = true) ∧
      (g2.cells 2 2).bDiscovered = false ∧ g2.discoveredCellCount = 8 := by
  have hib : ∀ i j : Int, InBounds k i j = true ↔ (0 ≤ i ∧ i < 3 ∧ 0 ≤ j ∧ j < 3) := by
    intro i j
    rw [InBounds_iff, h3]
    norm_num
  have hunm : ∀ i j : Int, InBounds k i j = true → ¬ (i = 2 ∧ j = 2) →
      (g.cells i j).bPlanted = false := by
    intro i j hb hne
    by_contra hc
    exact hne ((hmine i j hb).1 (by simpa using hc))
  have hzero : ∀ i j : Int, InBounds k i j = true → (i ≤ 0 ∨ j ≤ 0) →
      (g.cells i j).explosiveNeighbor = 0 := by
    intro i j hb hij
    rw [hacc i j hb]
    norm_cast
    unfold mineNeighbors
    rw [List.countP_eq_zero]
    intro d hd
    have hdb := offsets_bound d hd
    by_cases hbd : InBounds k (i + d.1) (j + d.2) = true
    · rw [hunm _ _ hbd (by omega)]
      simp
    · simp [hbd]
  have b00 : InBounds k 0 0 = true := (hib 0 0).2 (by omega)
  have b01 : InBounds k 0 1 = true := (hib 0 1).2 (by omega)
  have b02 : InBounds k 0 2 = true := (hib 0 2).2 (by omega)
  have b10 : InBounds k 1 0 = true := (hib 1 0).2 (by omega)
  have b11 : InBounds k 1 1 = true := (hib 1 1).2 (by omega)
  have b12 : InBounds k 1 2 = true := (hib 1 2).2 (by omega)
  have b20 : InBounds k 2 0 = true := (hib 2 0).2 (by omega)
  have b21 : InBounds k 2 1 = true := (hib 2 1).2 (by omega)
  have b22 : InBounds k 2 2 = true := (hib 2 2).2 (by omega)
  have hs : Safe k g 0 0 :=
    ⟨b00, (hfresh 0 0 b00).1, (hfresh 0 0 b00).2, hunm 0 0 b00 (by omega)⟩
  have z00 := hzero 0 0 b00 (by omega)
  obtain ⟨g2, hcall, hpost⟩ := CellReveal_safe k g 0 0 hs
  have r00 : OpenRegion k g 0 0 0 0 := OpenRegion.start
  have r01 : OpenRegion k g 0 0 0 1 :=
    OpenRegion.step r00 (by unfold Adjacent; omega) b01 (hzero 0 1 b01 (by omega))
      (hfresh 0 1 b01).1 (hfresh 0 1 b01).2
  have r02 : OpenRegion k g 0 0 0 2 :=
    OpenRegion.step r01 (by unfold Adjacent; omega) b02 (hzero 0 2 b02 (by omega))
      (hfresh 0 2 b02).1 (hfresh 0 2 b02).2
  have r10 : OpenRegion k g 0 0 1 0 :=
    OpenRegion.step r00 (by unfold Adjacent; omega) b10 (hzero 1 0 b10 (by omega))
      (hfresh 1 0 b10).1 (hfresh 1 0 b10).2
  have r20 : OpenRegion k g 0 0 2 0 :=
    OpenRegion.step r10 (by unfold Adjacent; omega) b20 (hzero 2 0 b20 (by omega))
      (hfresh 2 0 b20).1 (hfresh 2 0 b20).2
  have o00 := hpost.open_region hacc hs z00 0 0 r00
  have o01 := hpost.open_region hacc hs z00 0 1 r01
  have o02 := hpost.open_region hacc hs z00 0 2 r02
  have o10 := hpost.open_region hacc hs z00 1 0 r10
  have o20 := hpost.open_region hacc hs z00 2 0 r20
  have d11 : (g2.cells 1 1).bDiscovered = true :=
    hpost.neighbor_discovered hacc 0 0 1 1 o00.1 o00.2.1 o00.2.2.1 o00.2.2.2
      (by unfold Adjacent; omega) b11 (hfresh 1 1 b11).2
  have d12 : (g2.cells 1 2).bDiscovered = true :=
    hpost.neighbor_discovered hacc 0 1 1 2 o01.1 o01.2.1 o01.2.2.1 o01.2.2.2
      (by unfold Adjacent; omega) b12 (hfresh 1 2 b12).2
  have d21 : (g2.cells 2 1).bDiscovered = true :=
    hpost.neighbor_discovered hacc 1 0 2 1 o10.1 o10.2.1 o10.2.2.1 o10.2.2.2
      (by unfold Adjacent; omega) b21 (hfresh 2 1 b21).2
  have d22 : (g2.cells 2 2).bDiscovered = false := by
    rcases hpost.ext.cell 2 2 with e | ⟨_, hg, _⟩
    · rw [e]
      exact (hfresh 2 2 b22).1
    · rw [revealGuard_iff] at hg
      have := (hmine 2 2 b22).2 ⟨rfl, rfl⟩
      rw [hg.2.2] at this
      exact absurd this (by simp)
  have hpl : ∀ i j : Int, InBounds k i j = true → ¬ (i = 2 ∧ j = 2) →
      (g2.cells i j).bPlanted = false := by
    intro i j hb hne
    rw [hpost.ext.planted]
    exact hunm i j hb hne
  have hsafe0 : safeDiscovered k g = 0 := by
    unfold safeDiscovered countCells
    rw [List.countP_eq_zero]
    intro c hc
    simp [(hfresh _ _ (mem_coords_inBounds k c hc)).1]
  have hcoords : coords k =
      [(0, 0), (0, 1), (0, 2), (1, 0), (1, 1), (1, 2), (2, 0), (2, 1), (2, 2)] := by
    unfold coords
    rw [h3]
    rfl
  have hsafe8 : safeDiscovered k g2 = 8 := by
    unfold safeDiscovered countCells
    rw [hcoords]
    simp [List.countP_cons, o00.2.2.2, o01.2.2.2, o02.2.2.2, o10.2.2.2, o20.2.2.2, d11, d12,
      d21, d22, hpl 0 0 b00 (by omega), hpl 0 1 b01 (by omega), hpl 0 2 b02 (by omega),
      hpl 1 0 b10 (by omega), hpl 1 1 b11 (by omega), hpl 1 2 b12 (by omega),
      hpl 2 0 b20 (by omega), hpl 2 1 b21 (by omega)]
  have hcnt : g2.discoveredCellCount = 8 := by
    have := hpost.ext.count
    rw [hsafe0, hsafe8, hcount] at this
    push_cast at this
    omega
  have hwin : winCode k g2 = k.SUCCESS := by
    unfold winCode
    rw [hcnt, h3, hB]
    norm_num
  rw [hwin] at hcall
  refine ⟨g2, hcall, ?_, d22, hcnt⟩
  intro i j hb hne
  have hb2 := (hib i j).1 hb
  have hi : i = 0 ∨ i = 1 ∨ i = 2 := by omega
  have hj : j = 0 ∨ j = 1 ∨ j = 2 := by omega
  rcases hi with rfl | rfl | rfl <;> rcases hj with rfl | rfl | rfl
  · exact o00.2.2.2
  · exact o01.2.2.2
  · exact o02.2.2.2
  · exact o10.2.2.2
  · exact d11
  · exact d12
  · exact o20.2.2.2
  · exact d21
  · exact absurd ⟨rfl, rfl⟩ hne

/-! ## What the cascade discovers is linked to the revealed cell -/

theorem NewChain.mono {k : Consts} {g a b : Grid} {x y i j : Int}
    (hab : ∀ i j, (a.cells i j).bDiscovered = true → (b.cells i j).bDiscovered = true)
    (h : NewChain k g a x y i j) : NewChain k g b x y i j := by
  induction h with
  | start => exact NewChain.start
  | step _ hd hd2 hz hadj ih => exact NewChain.step ih hd (hab _ _ hd2) hz hadj

theorem NewChain.rebase {k : Consts} {g a b : Grid} {x y nx ny i j : Int}
    (hxd : (g.cells x y).bDiscovered = false) (hxd2 : (b.cells x y).bDiscovered = true)
    (hxz : (g.cells x y).explosiveNeighbor = 0) (hadj : Adjacent x y nx ny)
    (hga : ∀ i j, (a.cells i j).bDiscovered = false → (g.cells i j).bDiscovered = false)
    (hn : ∀ i j, (a.cells i j).explosiveNeighbor = (g.cells i j).explosiveNeighbor)
    (h : NewChain k a b nx ny i j) : NewChain k g b x y i j := by
  induction h with
  | start => exact NewChain.step NewChain.start hxd hxd2 hxz hadj
  | step _ hd hd2 hz hadj2 ih =>
    exact NewChain.step ih (hga _ _ hd) hd2 (by rw [← hn]; exact hz) hadj2

theorem CellRevealFuel_chain (k : Consts) :
    ∀ fuel g x y, undiscovered k g < fuel → Safe k g x y →
      (∀ i j, InBounds k i j = true → 0 ≤ (g.cells i j).explosiveNeighbor) →
      ∃ g2, CellRevealFuel k fuel g x y = some (winCode k g2, g2) ∧ Ext k g g2 ∧
        ∀ i j, (g.cells i j).bDiscovered = false → (g2.cells i j).bDiscovered = true →
          NewChain k g g2 x y i j := by
  intro fuel
  induction fuel with
  | zero =>
    intro g x y h
    omega
  | succ fuel ih =>
    intro g x y hfuel hsafe hnn
    have hmark := Ext_mark k g x y hsafe
    have hU := undiscovered_mark k g x y hsafe
    have hfirst : ∀ i j, (g.cells i j).bDiscovered = false →
        ((markDiscovered g x y).cells i j).bDiscovered = true →
        NewChain k g (markDiscovered g x y) x y i j := by
      intro i j hdi hdi2
      by_cases hij : i = x ∧ j = y
      · obtain ⟨rfl, rfl⟩ := hij
        exact NewChain.start
      · rw [markDiscovered_cells, if_neg hij, hdi] at hdi2
        exact absurd hdi2 (by simp)
    rw [CellRevealFuel_unfold_safe k fuel g x y hsafe]
    by_cases hn : (g.cells x y).explosiveNeighbor > 0
    · rw [if_pos hn]
      exact ⟨markDiscovered g x y, rfl, hmark, hfirst⟩
    · rw [if_neg hn]
      have hxz : (g.cells x y).explosiveNeighbor = 0 := by
        have := hnn x y hsafe.1
        omega
      obtain ⟨g2, hg2, hJ⟩ := revealNeighbors_total k (CellRevealFuel k fuel) x y
        (fun l acc => undiscovered k acc < fuel ∧ Ext k (markDiscovered g x y) acc ∧
          (∀ d ∈ l, d ∈ offsets) ∧
          ∀ i j, (g.cells i j).bDiscovered = false → (acc.cells i j).bDiscovered = true →
            NewChain k g acc x y i j)
        (by
          rintro d rest acc ⟨h1, h2, h3, h4⟩ _
          exact ⟨h1, h2, fun e he => h3 e (List.mem_cons_of_mem _ he), h4⟩)
        (by
          rintro d rest acc ⟨h1, h2, h3, h4⟩ h0 hb hg
          have hs : Safe k acc (x + d.1) (y + d.2) := ⟨hb, (revealGuard_iff _).1 hg⟩
          have hga := hmark.comp h2
          obtain ⟨acc2, hcall, hext, hchain⟩ := ih acc (x + d.1) (y + d.2) h1 hs
            (fun i j hij => by rw [hga.neighbor]; exact hnn i j hij)
          refine ⟨_, hcall, lt_of_le_of_lt hext.undiscovered_mono h1, h2.comp hext,
            fun e he => h3 e (List.mem_cons_of_mem _ he), ?_⟩
          intro i j hdi hdi2
          by_cases hda : (acc.cells i j).bDiscovered = true
          · exact (h4 i j hdi hda).mono hext.disc_mono
          · have hxd2 : (acc2.cells x y).bDiscovered = true :=
              (h2.comp hext).disc_mono x y (by simp [markDiscovered_cells])
            exact NewChain.rebase hsafe.2.1 hxd2 hxz
              (Adjacent.of_offset x y d (h3 d (List.mem_cons_self _ _)) h0)
              (fun a b hab => by
                by_contra hc
                have := hga.disc_mono a b (by simpa using hc)
                rw [this] at hab
                exact absurd hab (by simp))
              hga.neighbor (hchain i j (by simpa using hda) hdi2))
        offsets (markDiscovered g x y)
        ⟨by omega, Ext.same k _, fun d hd => hd, hfirst⟩
      rw [hg2]
      obtain ⟨_, hext, _, hchain⟩ := hJ
      exact ⟨g2, rfl, hmark.comp hext, hchain⟩

theorem CountsAccurate.nonneg {k : Consts} {g : Grid} (h : CountsAccurate k g) (i j : Int)
    (hij : InBounds k i j = true) : 0 ≤ (g.cells i j).explosiveNeighbor := by
  rw [h i j hij]
  exact Int.natCast_nonneg _

/-- C19: on every board whose counts are not negative, after the reveal of a cell `c`
that is not mined, every cell that the call discovered is unmined and unflagged, is
linked to `c` by a chain of neighbouring cells of count zero that the same call
discovered, and is `c` itself or an 8-neighbour of a cell of count zero that the same
call discovered. -/
theorem cascade_stays_linked (k : Consts) (g : Grid) (x y : Int)
    (hp : InBounds k x y = true → (g.cells x y).bPlanted = false)
    (hnn : ∀ i j, InBounds k i j = true → 0 ≤ (g.cells i j).explosiveNeighbor) :
    ∃ r g2, CellReveal k g x y = some (r, g2) ∧
      ∀ i j, (g.cells i j).bDiscovered = false → (g2.cells i j).bDiscovered = true →
        (g.cells i j).bPlanted = false ∧ (g.cells i j).bFlagged = false ∧
        NewChain k g g2 x y i j ∧
        ((i = x ∧ j = y) ∨
          ∃ i0 j0, Adjacent i0 j0 i j ∧ (g.cells i0 j0).bDiscovered = false ∧
            (g2.cells i0 j0).bDiscovered = true ∧
            (g.cells i0 j0).explosiveNeighbor = 0) := by
  by_cases hs : Safe k g x y
  · obtain ⟨g2, hcall, hext, hchain⟩ := CellRevealFuel_chain k _ g x y
      (Nat.lt_succ_of_le (undiscovered_le k g)) hs hnn
    refine ⟨_, g2, hcall, fun i j hd hd2 => ?_⟩
    have hc := hchain i j hd hd2
    have hguard : (g.cells i j).bPlanted = false ∧ (g.cells i j).bFlagged = false := by
      rcases hext.cell i j with e | ⟨_, hg, _⟩
      · rw [e, hd] at hd2
        exact absurd hd2 (by simp)
      · rw [revealGuard_iff] at hg
        exact ⟨hg.2.2, hg.2.1⟩
    refine ⟨hguard.1, hguard.2, hc, ?_⟩
    cases hc with
    | start => exact Or.inl ⟨rfl, rfl⟩
    | @step i0 j0 _ _ _ h1 h2 h3 h4 => exact Or.inr ⟨i0, j0, h4, h1, h2, h3⟩
  · have hno : CellReveal k g x y = some (0, g) := by
      apply CellReveal_noop
      by_contra hc
      push_neg at hc
      have hb : InBounds k x y = true := by simpa using hc.1
      exact hs ⟨hb, by simpa using hc.2.1, by simpa using hc.2.2, hp hb⟩
    refine ⟨0, g, hno, fun i j hd hd2 => ?_⟩
    rw [hd] at hd2
    exact absurd hd2 (by simp)

/-! ## Further concrete instances on the 3×3 boards -/

theorem board3_cells (i j : Int) (hb : InBounds demo3 i j = true) :
    ((board3.cells i j).bPlanted = true ↔ (i = 2 ∧ j = 2)) ∧
      (board3.cells i j).bDiscovered = false ∧ (board3.cells i j).bFlagged = false := by
  rw [InBounds_iff] at hb
  have h3 : (demo3.GRID_SIZE : Int) = 3 := rfl
  rw [h3] at hb
  have hi : i = 0 ∨ i = 1 ∨ i = 2 := by omega
  have hj : j = 0 ∨ j = 1 ∨ j = 2 := by omega
  rcases hi with rfl | rfl | rfl <;> rcases hj with rfl | rfl | rfl <;> decide

theorem flag_twice_restores_witness :
    InBounds demo3 0 0 = true ∧ (board3.cells 0 0).bDiscovered = false ∧
      CellFlag demo3 (CellFlag demo3 board3 0 0) 0 0 = board3 ∧
      ((CellFlag demo3 (CellFlag demo3 board3 0 0) 0 0).cells 0 0).bFlagged =
        (board3.cells 0 0).bFlagged ∧
      ((board3.cells 0 0).bFlagged = false →
        CellReveal demo3 (CellFlag demo3 board3 0 0) 0 0 =
          some (0, CellFlag demo3 board3 0 0)) :=
  ⟨by decide, by decide, flag_twice_restores demo3 board3 0 0 (by decide) (by decide)⟩

theorem flagged_never_discovered_witness :
    Reachable demo3 true boardC3 ∧
      (∀ i j, ¬ ((boardC3.cells i j).bFlagged = true ∧
        (boardC3.cells i j).bDiscovered = true)) ∧
      ∀ x y, ∃ res, CellReveal demo3 boardC3 x y = some res ∧
        ∀ i j, (boardC3.cells i j).bFlagged = true →
          res.2.cells i j = boardC3.cells i j ∧ (res.2.cells i j).bDiscovered = false :=
  ⟨boardC3_reachable, flagged_never_discovered demo3 true boardC3 boardC3_reachable⟩

theorem example_3x3_win_witness :
    demo3.GRID_SIZE = 3 ∧ demo3.BOMB_COUNT = 1 ∧ CountsAccurate demo3 board3 ∧
      board3.discoveredCellCount = 0 ∧
      ∃ g2, CellReveal demo3 board3 0 0 = some (demo3.SUCCESS, g2) ∧
        (∀ i j, InBounds demo3 i j = true → ¬ (i = 2 ∧ j = 2) →
          (g2.cells i j).bDiscovered = true) ∧
        (g2.cells 2 2).bDiscovered = false ∧ g2.discoveredCellCount = 8 :=
  ⟨rfl, rfl, board3_reachable.inv.accurate, by decide,
    example_3x3_win demo3 board3 rfl rfl (fun i j hb => (board3_cells i j hb).1)
      board3_reachable.inv.accurate (fun i j hb => (board3_cells i j hb).2) (by decide)⟩

theorem cascade_locally_closed_witness :
    (InBounds demo3 0 0 = true → (board3.cells 0 0).bPlanted = false) ∧
      ∃ r g2, CellReveal demo3 board3 0 0 = some (r, g2) ∧
        ∀ i j, (board3.cells i j).bDiscovered = false → (g2.cells i j).bDiscovered = true →
          (board3.cells i j).explosiveNeighbor = 0 →
          ∀ i2 j2, Adjacent i j i2 j2 → InBounds demo3 i2 j2 = true →
            (board3.cells i2 j2).bFlagged = false → (board3.cells i2 j2).bPlanted = false →
            (g2.cells i2 j2).bDiscovered = true :=
  ⟨fun _ => by decide, cascade_locally_closed demo3 board3 0 0 (fun _ => by decide)⟩

theorem cascade_stays_linked_witness :
    (InBounds demo3 0 0 = true → (board3.cells 0 0).bPlanted = false) ∧
      (∀ i j, InBounds demo3 i j = true → 0 ≤ (board3.cells i j).explosiveNeighbor) ∧
      ∃ r g2, CellReveal demo3 board3 0 0 = some (r, g2) ∧
        ∀ i j, (board3.cells i j).bDiscovered = false → (g2.cells i j).bDiscovered = true →
          (board3.cells i j).bPlanted = false ∧ (board3.cells i j).bFlagged = false ∧
          NewChain demo3 board3 g2 0 0 i j ∧
          ((i = 0 ∧ j = 0) ∨
            ∃ i0 j0, Adjacent i0 j0 i j ∧ (board3.cells i0 j0).bDiscovered = false ∧
              (g2.cells i0 j0).bDiscovered = true ∧
              (board3.cells i0 j0).explosiveNeighbor = 0) :=
  ⟨fun _ => by decide, board3_reachable.inv.accurate.nonneg,
    cascade_stays_linked demo3 board3 0 0 (fun _ => by decide)
      board3_reachable.inv.accurate.nonneg⟩

theorem reveal_failure_iff_witness :
    demo3.FAILURE ≠ 0 ∧ demo3.FAILURE ≠ demo3.SUCCESS ∧
      ∃ res, CellReveal demo3 board3 2 2 = some res ∧
        (res.1 = demo3.FAILURE ↔
          (InBounds demo3 2 2 = true ∧ (board3.cells 2 2).bDiscovered = false ∧
            (board3.cells 2 2).bFlagged = false ∧ (board3.cells 2 2).bPlanted = true)) ∧
        (res.1 ≠ demo3.FAILURE → res.1 = 0 ∨ res.1 = demo3.SUCCESS) :=
  ⟨by decide, by decide, reveal_failure_iff demo3 board3 2 2 (by decide) (by decide)⟩

theorem reveal_terminates_witness :
    board3.discoveredCellCount + (hiddenSafe demo3 board3 : Int) ≤ INT_MAX ∧
      ∃ res, CellReveal demo3 board3 0 0 = some res ∧
        (∀ fuel, undiscovered demo3 board3 < fuel →
          CellRevealFuel demo3 fuel board3 0 0 = some res) ∧
        (InBounds demo3 0 0 = true → (board3.cells 0 0).bDiscovered = false →
          (board3.cells 0 0).bFlagged = false →
          undiscovered demo3 res.2 < undiscovered demo3 board3) ∧
        undiscovered demo3 res.2 ≤ undiscovered demo3 board3 ∧
        (board3.discoveredCellCount + (hiddenSafe demo3 board3 : Int) ≤ INT_MAX →
          res.2.discoveredCellCount ≤ INT_MAX ∧
          res.2.discoveredCellCount - board3.discoveredCellCount =
            (safeDiscovered demo3 res.2 : Int) - (safeDiscovered demo3 board3 : Int) ∧
          board3.discoveredCellCount ≤ res.2.discoveredCellCount ∧
          res.2.discoveredCellCount - board3.discoveredCellCount ≤
            (hiddenSafe demo3 board3 : Int)) :=
  ⟨by decide, reveal_terminates demo3 board3 0 0⟩

end Minesweeper
